import Mathlib

/-!
Verification of the slade360 bulk claim submission pipeline
(src/slade360/api.py together with the resource wrappers in
src/slade360/wrappers/submit_visits.py).

The development has two parts.

Part one is a shallow embedding of the sequential orchestration code:
Python dictionaries become association lists over `PyVal`, keyword
argument binding of the wrapper signatures is modelled by `bindKwargs`,
and the fallible orchestration functions return `Except PyErr`.  The
remote service (`_make_request` inside each wrapper) is an arbitrary
function supplied through the `Remote` structure, so theorems quantify
over every possible remote behaviour.

Part two is a small-step operational model of `_process_tasks` and
`_worker` (api.py lines 48-82) together with the semantics of the
Python `queue.Queue` primitives used there: `put` appends an item and
increments the unfinished counter, `get` atomically removes the head,
`task_done` decrements the unfinished counter, `join` blocks until the
counter is zero.  The main thread and each worker thread are explicit
state machines and executions are arbitrary interleavings of their
steps.
-/

/-- Python runtime values, as needed by the bulk submission pipeline.
Dictionaries are association lists whose keys are unique by
construction in all inputs considered here, matching Python dicts. -/
inductive PyVal where
  | none : PyVal
  | str : String → PyVal
  | int : Int → PyVal
  | list : List PyVal → PyVal
  | dict : List (String × PyVal) → PyVal

/-- Python exceptions that the orchestration code can raise or observe:
TypeError (bad keyword arguments), KeyError (missing dictionary key),
RequestError (failed remote call, raised by _make_request) and
FileNotFoundError (missing attachment file). -/
inductive PyErr where
  | typeError (msg : String)
  | keyError (key : String)
  | requestError (msg : String)
  | fileNotFound (path : String)
deriving DecidableEq, Repr

/-- Python subscript access d[k]. On a dictionary a missing key raises
KeyError; on any non dictionary value the claims code would raise a
TypeError. -/
def getItem (v : PyVal) (k : String) : Except PyErr PyVal :=
  match v with
  | .dict entries =>
      match entries.lookup k with
      | some x => .ok x
      | Option.none => .error (.keyError k)
  | _ => .error (.typeError "object is not subscriptable")

/-- Python d.get(k, default) on a dictionary value. -/
def dictGetD (v : PyVal) (k : String) (dflt : PyVal) : Except PyErr PyVal :=
  match v with
  | .dict entries => .ok ((entries.lookup k).getD dflt)
  | _ => .error (.typeError "value has no attribute get")

/-- Python d.pop(k, default): returns the value stored under k (or the
default) together with the dictionary with that key removed. -/
def dictPop (d : List (String × PyVal)) (k : String) (dflt : PyVal) :
    PyVal × List (String × PyVal) :=
  match d.lookup k with
  | some v => (v, d.filter (fun kv => kv.1 != k))
  | Option.none => (dflt, d)

/-- Keys of a keyword argument list are pairwise distinct. -/
def keysDistinct : List String → Bool
  | [] => true
  | k :: ks => !(ks.contains k) && keysDistinct ks

/-- Python keyword argument binding for a call f(**kwargs) against a
signature with the given required and optional parameter names.  A
duplicate key, an unknown keyword or a missing required argument each
raise TypeError, exactly as CPython does when binding arguments. -/
def bindKwargs (required optParams : List String)
    (kwargs : List (String × PyVal)) : Except PyErr (List (String × PyVal)) :=
  let keys := kwargs.map Prod.fst
  if keysDistinct keys then
    match keys.find? (fun k => !(required.contains k || optParams.contains k)) with
    | some k => .error (.typeError ("unexpected keyword argument " ++ k))
    | Option.none =>
        match required.find? (fun k => !(keys.contains k)) with
        | some k => .error (.typeError ("missing required argument " ++ k))
        | Option.none => .ok kwargs
  else .error (.typeError "got multiple values for an argument")

/-- Parameter names of Claim.create_claim (submit_visits.py lines 17-31),
excluding self. -/
def createClaimRequired : List String :=
  ["payer_code", "payer_name", "patient_name", "member_number", "scheme_name",
   "visit_number", "visit_start", "visit_end", "icd10_codes"]

/-- Optional parameters of Claim.create_claim. -/
def createClaimOptional : List String :=
  ["location_code", "location_name", "scheme_code"]

/-- Required parameter names of Invoice.submit_invoices
(submit_visits.py lines 118-125), excluding self. -/
def submitInvoicesRequired : List String :=
  ["claim", "invoice_number", "invoice_date", "lines"]

/-- Optional parameters of Invoice.submit_invoices. -/
def submitInvoicesOptional : List String := ["copays"]

/-- Required parameter names of CreditNote.submit_credit_note
(submit_visits.py lines 185-191), excluding self. -/
def submitCreditNoteRequired : List String :=
  ["claim", "invoice_number", "invoice_date", "lines"]

/-- Optional parameters of CreditNote.submit_credit_note. -/
def submitCreditNoteOptional : List String := []

/-- Behaviour of the remote service: for each resource creation wrapper,
the response (or error) produced by the underlying _make_request call,
as a function of the bound keyword arguments.  Universally quantified in
all theorems, so no assumption is made about the remote side. -/
structure Remote where
  createClaimCall : List (String × PyVal) → Except PyErr PyVal
  submitInvoicesCall : List (String × PyVal) → Except PyErr PyVal
  submitCreditNoteCall : List (String × PyVal) → Except PyErr PyVal

/-- Claim.create_claim invoked as create_claim(**kwargs): binds the
keyword arguments against the signature and performs the remote call. -/
def create_claim (remote : Remote) (kwargs : List (String × PyVal)) :
    Except PyErr PyVal :=
  match bindKwargs createClaimRequired createClaimOptional kwargs with
  | .error e => .error e
  | .ok bound => remote.createClaimCall bound

/-- Invoice.submit_invoices invoked with keyword arguments. -/
def submit_invoices (remote : Remote) (kwargs : List (String × PyVal)) :
    Except PyErr PyVal :=
  match bindKwargs submitInvoicesRequired submitInvoicesOptional kwargs with
  | .error e => .error e
  | .ok bound => remote.submitInvoicesCall bound

/-- CreditNote.submit_credit_note invoked with keyword arguments (the
positional claim argument of the call site is modelled as the kwarg
named claim, which binds identically). -/
def submit_credit_note (remote : Remote) (kwargs : List (String × PyVal)) :
    Except PyErr PyVal :=
  match bindKwargs submitCreditNoteRequired submitCreditNoteOptional kwargs with
  | .error e => .error e
  | .ok bound => remote.submitCreditNoteCall bound

/-- Operations that appear as the function component of a deferred task
in api.py: submit_claim_attachment (used for claim attachments, line 90)
and submit_invoice_attachment (used for invoice attachments, line 109,
and also for credit note attachments, line 127). -/
inductive TaskFun where
  | submitClaimAttachment
  | submitInvoiceAttachment
deriving DecidableEq, Repr

/-- A deferred unit of work: the (func, args) pair appended to the tasks
deque by the per claim orchestrator. -/
structure QTask where
  fn : TaskFun
  args : List PyVal

/-- Identifier of the parent resource a task is bound to: the first
element of its argument tuple (claim id for claim attachments, invoice
or credit note id for the others). -/
def QTask.parentId (t : QTask) : Option PyVal := t.args.head?

/-- Synchronous resource creation calls performed by the per claim
orchestrator, with the keyword arguments passed and the outcome of the
call. -/
inductive CallEvent where
  | claimCreate (kwargs : List (String × PyVal)) (resp : Except PyErr PyVal)
  | invoiceCreate (kwargs : List (String × PyVal)) (resp : Except PyErr PyVal)
  | crnCreate (kwargs : List (String × PyVal)) (resp : Except PyErr PyVal)

/-- Outcome recorded in a creation call event. -/
def CallEvent.resp : CallEvent → Except PyErr PyVal
  | .claimCreate _ r => r
  | .invoiceCreate _ r => r
  | .crnCreate _ r => r

/-- Test for a claim creation call event. -/
@[simp] def isClaimCreateB : CallEvent → Bool
  | .claimCreate _ _ => true
  | _ => false

/-- Test for an invoice submission call event. -/
@[simp] def isInvoiceCreateB : CallEvent → Bool
  | .invoiceCreate _ _ => true
  | _ => false

/-- Identifiers of successfully created resources: the id field of each
successful creation response. -/
def createdIds (events : List CallEvent) : List PyVal :=
  events.filterMap fun e =>
    match e.resp with
    | .ok (.dict entries) => entries.lookup "id"
    | _ => Option.none

/-- Slade360._process_claim_attachments (api.py lines 84-98): for each
attachment record, append one submit_claim_attachment task carrying the
claim id, the attachment path, its type, and the optional description
(default None).  A record without the mandatory keys raises KeyError. -/
def _process_claim_attachments (claim_attachments : List PyVal)
    (claim_id : PyVal) : Except PyErr (List QTask) :=
  match claim_attachments with
  | [] => .ok []
  | att :: rest =>
      match getItem att "path_to_attachment" with
      | .error e => .error e
      | .ok path =>
          match getItem att "attachment_type" with
          | .error e => .error e
          | .ok atype =>
              match dictGetD att "description" PyVal.none with
              | .error e => .error e
              | .ok desc =>
                  match _process_claim_attachments rest claim_id with
                  | .error e => .error e
                  | .ok ts =>
                      .ok (⟨.submitClaimAttachment,
                            [claim_id, path, atype, desc]⟩ :: ts)

/-- Attachment tasks of one invoice or credit note: one
submit_invoice_attachment task per attachment record, carrying the
parent id, the attachment path, and the description (default empty
string, api.py lines 113 and 131). -/
def buildAttachmentTasks (parent_id : PyVal) (atts : PyVal) :
    Except PyErr (List QTask) :=
  match atts with
  | .list l => buildAttachmentTasksList parent_id l
  | _ => .error (.typeError "attachments value is not iterable")
where
  /-- Recursion over the attachment records. -/
  buildAttachmentTasksList (parent_id : PyVal) :
      List PyVal → Except PyErr (List QTask)
    | [] => .ok []
    | att :: rest =>
        match getItem att "path_to_attachment" with
        | .error e => .error e
        | .ok path =>
            match dictGetD att "description" (PyVal.str "") with
            | .error e => .error e
            | .ok desc =>
                match buildAttachmentTasksList parent_id rest with
                | .error e => .error e
                | .ok ts =>
                    .ok (⟨.submitInvoiceAttachment, [parent_id, path, desc]⟩ :: ts)

/-- Slade360._process_invoices (api.py lines 100-116): for each invoice
record, call submit_invoices(claim=claim_id, **invoice) synchronously,
read the id field of the response, then append one attachment task per
entry of invoice.get("invoice_attachments", []).  The call events are
returned even when an error aborts the loop, so that theorems can speak
about which calls were attempted. -/
def _process_invoices (remote : Remote) (invoices : List PyVal)
    (claim_id : PyVal) : List CallEvent × Except PyErr (List QTask) :=
  match invoices with
  | [] => ([], .ok [])
  | inv :: rest =>
      match inv with
      | .dict entries =>
          let kwargs := ("claim", claim_id) :: entries
          match submit_invoices remote kwargs with
          | .error e => ([.invoiceCreate kwargs (.error e)], .error e)
          | .ok resp =>
              match getItem resp "id" with
              | .error e => ([.invoiceCreate kwargs (.ok resp)], .error e)
              | .ok inv_id =>
                  let atts := (entries.lookup "invoice_attachments").getD (.list [])
                  match buildAttachmentTasks inv_id atts with
                  | .error e => ([.invoiceCreate kwargs (.ok resp)], .error e)
                  | .ok ts =>
                      let (evs, res) := _process_invoices remote rest claim_id
                      (.invoiceCreate kwargs (.ok resp) :: evs,
                       match res with
                       | .error e => .error e
                       | .ok ts2 => .ok (ts ++ ts2))
      | _ => ([], .error (.typeError "argument after ** must be a mapping"))

/-- Slade360._process_credit_notes (api.py lines 118-134): for each
credit note record, call submit_credit_note(claim_id, **crn)
synchronously, read the id field of the response, then append one
attachment task per entry of crn.get("crn_attachments", []). -/
def _process_credit_notes (remote : Remote) (credit_notes : List PyVal)
    (claim_id : PyVal) : List CallEvent × Except PyErr (List QTask) :=
  match credit_notes with
  | [] => ([], .ok [])
  | crn :: rest =>
      match crn with
      | .dict entries =>
          let kwargs := ("claim", claim_id) :: entries
          match submit_credit_note remote kwargs with
          | .error e => ([.crnCreate kwargs (.error e)], .error e)
          | .ok resp =>
              match getItem resp "id" with
              | .error e => ([.crnCreate kwargs (.ok resp)], .error e)
              | .ok crn_id =>
                  let atts := (entries.lookup "crn_attachments").getD (.list [])
                  match buildAttachmentTasks crn_id atts with
                  | .error e => ([.crnCreate kwargs (.ok resp)], .error e)
                  | .ok ts =>
                      let (evs, res) := _process_credit_notes remote rest claim_id
                      (.crnCreate kwargs (.ok resp) :: evs,
                       match res with
                       | .error e => .error e
                       | .ok ts2 => .ok (ts ++ ts2))
      | _ => ([], .error (.typeError "argument after ** must be a mapping"))

/-- Result of the synchronous phase of send_a_claim_and_its_children:
the creation calls performed, and either the accumulated task list that
is then handed to _process_tasks, or the exception that propagated out
of the method.  The final _process_tasks(tasks) run is modelled by the
ProcessTasks transition system below, which consumes the ok task list. -/
structure SyncResult where
  events : List CallEvent
  result : Except PyErr (List QTask)

/-- Python list values become Lean lists; iterating anything else in the
orchestrator is modelled as TypeError. -/
def asList (v : PyVal) : Except PyErr (List PyVal) :=
  match v with
  | .list l => .ok l
  | _ => .error (.typeError "value is not iterable")

/-- Slade360.send_a_claim_and_its_children (api.py lines 136-157),
synchronous phase: pop invoices, claim_attachments and credit_notes from
the bundled record, call create_claim(**bundled_claim), read the id
field, then build the task deque from the claim attachments, the
invoices and the credit notes in that order. -/
def send_a_claim_and_its_children (remote : Remote)
    (bundled_claim : List (String × PyVal)) : SyncResult :=
  let (invoicesV, b1) := dictPop bundled_claim "invoices" (.list [])
  let (claimAttsV, b2) := dictPop b1 "claim_attachments" (.list [])
  let (creditNotesV, b3) := dictPop b2 "credit_notes" (.list [])
  match create_claim remote b3 with
  | .error e => ⟨[.claimCreate b3 (.error e)], .error e⟩
  | .ok resp =>
      match getItem resp "id" with
      | .error e => ⟨[.claimCreate b3 (.ok resp)], .error e⟩
      | .ok claim_id =>
          match asList claimAttsV with
          | .error e => ⟨[.claimCreate b3 (.ok resp)], .error e⟩
          | .ok attsL =>
              match _process_claim_attachments attsL claim_id with
              | .error e => ⟨[.claimCreate b3 (.ok resp)], .error e⟩
              | .ok ts1 =>
                  match asList invoicesV with
                  | .error e => ⟨[.claimCreate b3 (.ok resp)], .error e⟩
                  | .ok invL =>
                      let (evI, resI) := _process_invoices remote invL claim_id
                      match resI with
                      | .error e =>
                          ⟨.claimCreate b3 (.ok resp) :: evI, .error e⟩
                      | .ok ts2 =>
                          match asList creditNotesV with
                          | .error e =>
                              ⟨.claimCreate b3 (.ok resp) :: evI, .error e⟩
                          | .ok crnL =>
                              let (evC, resC) :=
                                _process_credit_notes remote crnL claim_id
                              match resC with
                              | .error e =>
                                  ⟨.claimCreate b3 (.ok resp) :: evI ++ evC,
                                   .error e⟩
                              | .ok ts3 =>
                                  ⟨.claimCreate b3 (.ok resp) :: evI ++ evC,
                                   .ok (ts1 ++ ts2 ++ ts3)⟩

/-- Terminal outcome of one full per claim orchestration as observed by
the bulk dispatcher: an exception escaping the synchronous phase, or
normal completion.  The trailing _process_tasks run returns normally
whatever happens to individual tasks, because _worker catches every
exception raised by a task operation (api.py lines 55-60); this is
proved below as processTasks_terminates. -/
def orchestrationOutcome (remote : Remote)
    (bundled_claim : List (String × PyVal)) : Except PyErr Unit :=
  match (send_a_claim_and_its_children remote bundled_claim).result with
  | .error e => .error e
  | .ok _ => .ok ()

/-- Observable result of Slade360.send_claims_in_bulk (api.py lines
23-46).  The body is exactly: with ThreadPoolExecutor(num_of_workers)
as executor: executor.map(send_a_claim_and_its_children, bundled_claims).
ThreadPoolExecutor.map submits one future per claim immediately; an
exception raised by a claim is stored in its future; the results
iterator returned by map is never consumed, so no stored exception is
ever re-raised; the with block waits for all futures on exit and the
method returns None.  The futures field records the settled per claim
outcomes that stay inside the discarded iterator, retval is what the
caller sees, and no logging statement exists in this method. -/
structure BulkResult where
  futures : List (Except PyErr Unit)
  retval : Except PyErr Unit

/-- Slade360.send_claims_in_bulk, modelled per the semantics above. -/
def send_claims_in_bulk (remote : Remote)
    (bundled_claims : List (List (String × PyVal))) : BulkResult :=
  { futures := bundled_claims.map (orchestrationOutcome remote),
    retval := .ok () }

namespace ProcessTasks

/-- Items travelling through the queue.Queue of _process_tasks: real
tasks and the None sentinel that tells a worker to stop (api.py lines
50-52 and 78-79).  The task payload type is a parameter; the
orchestrator instantiates it with QTask. -/
inductive QItem (τ : Type) where
  | task (t : τ)
  | sentinel
deriving DecidableEq, Repr

/-- Control state of one worker thread running Slade360._worker (api.py
lines 48-60).  notStarted: the Thread object was not started yet;
waiting: blocked in queue.get(); running: obtained a task, about to call
func(*args); acking: func returned or raised and was caught, about to
call queue.task_done(); stopped: dequeued the None sentinel and
returned. -/
inductive WStatus (τ : Type) where
  | notStarted
  | waiting
  | running (t : τ)
  | acking (t : τ)
  | stopped
deriving DecidableEq, Repr

/-- Control state of the main thread running Slade360._process_tasks
(api.py lines 62-82): the spawn loop, the put loop, queue.join(), the
sentinel put loop, and the thread join loop. -/
inductive MStatus (τ : Type) where
  | spawning (k : Nat) (pending : List τ)
  | enqueuing (pending : List τ)
  | joining
  | stopping (k : Nat)
  | threadJoin (i : Nat)
  | returned
deriving DecidableEq, Repr

/-- Events recorded by an execution, used to state the temporal claims.
The executed event carries the worker index, the task, and whether the
operation raised (true means func(*args) raised and the worker caught
the exception). -/
inductive SysEvent (τ : Type) where
  | spawned (w : Nat)
  | enqueued (t : τ)
  | dequeued (w : Nat) (t : τ)
  | executed (w : Nat) (t : τ) (raised : Bool)
  | loggedError (w : Nat) (t : τ)
  | acked (w : Nat) (t : τ)
  | joinedQueue
  | sentinelPut
  | sentinelConsumed (w : Nat)
  | returnedEv
deriving DecidableEq, Repr

/-- Global state of one _process_tasks run: the main thread status, the
status of each of the num_workers worker threads, the queue contents,
the unfinished task counter of queue.Queue (incremented by put,
decremented by task_done), and the event history. -/
structure SysState (τ : Type) where
  main : MStatus τ
  workers : List (WStatus τ)
  qItems : List (QItem τ)
  unfinished : Nat
  trace : List (SysEvent τ)
deriving DecidableEq

/-- Initial state of _process_tasks tasks num_workers: nothing spawned,
empty queue, empty history. -/
def initState (n : Nat) (tasks : List τ) : SysState τ :=
  { main := .spawning 0 tasks,
    workers := List.replicate n .notStarted,
    qItems := [],
    unfinished := 0,
    trace := [] }

/-- Scheduling actions: either the main thread or the worker with the
given index takes its next enabled step. -/
inductive Act where
  | mainAct
  | workerAct (w : Nat)
deriving DecidableEq, Repr

/-- One small step of the system, as chosen by the scheduler action.
Returns none when that thread has no enabled step (it is blocked or
finished).  The fail argument is the environment: fail t is true when
invoking the operation of task t raises an exception.

Main thread (api.py lines 62-82): the spawn loop starts worker k and
continues; when all workers are started the put loop enqueues each task
(put appends and increments unfinished); queue.join() proceeds only
when unfinished = 0; the sentinel loop puts num_workers None items
(each put also increments unfinished; no task_done is ever called for a
sentinel because the worker breaks before the finally clause); the
thread join loop waits for each worker in turn.

Worker thread (api.py lines 48-60): queue.get() blocks on an empty
queue and atomically removes the head; a None head ends the loop
without task_done; a task head is executed, an exception is caught and
logged, and the finally clause calls task_done, decrementing
unfinished. -/
def stepFn (fail : τ → Bool) (a : Act) (s : SysState τ) : Option (SysState τ) :=
  match a with
  | .mainAct =>
      match s.main with
      | .spawning k pending =>
          if k < s.workers.length then
            some { s with
                   main := MStatus.spawning (k + 1) pending,
                   workers := s.workers.set k .waiting,
                   trace := s.trace ++ [.spawned k] }
          else
            some { s with main := .enqueuing pending }
      | .enqueuing [] => some { s with main := .joining }
      | .enqueuing (t :: pending) =>
          some { s with
                 main := .enqueuing pending,
                 qItems := s.qItems ++ [.task t],
                 unfinished := s.unfinished + 1,
                 trace := s.trace ++ [.enqueued t] }
      | .joining =>
          if s.unfinished = 0 then
            some { s with main := .stopping 0, trace := s.trace ++ [.joinedQueue] }
          else Option.none
      | .stopping k =>
          if k < s.workers.length then
            some { s with
                   main := .stopping (k + 1),
                   qItems := s.qItems ++ [.sentinel],
                   unfinished := s.unfinished + 1,
                   trace := s.trace ++ [.sentinelPut] }
          else
            some { s with main := .threadJoin 0 }
      | .threadJoin i =>
          if i < s.workers.length then
            match s.workers[i]? with
            | some .stopped => some { s with main := .threadJoin (i + 1) }
            | _ => Option.none
          else
            some { s with main := .returned, trace := s.trace ++ [.returnedEv] }
      | .returned => Option.none
  | .workerAct w =>
      match s.workers[w]? with
      | some .waiting =>
          match s.qItems with
          | .task t :: rest =>
              some { s with
                     workers := s.workers.set w (.running t),
                     qItems := rest,
                     trace := s.trace ++ [.dequeued w t] }
          | .sentinel :: rest =>
              some { s with
                     workers := s.workers.set w .stopped,
                     qItems := rest,
                     trace := s.trace ++ [.sentinelConsumed w] }
          | [] => Option.none
      | some (.running t) =>
          some { s with
                 workers := s.workers.set w (.acking t),
                 trace := s.trace ++ (.executed w t (fail t) ::
                   (if fail t then [.loggedError w t] else [])) }
      | some (.acking t) =>
          some { s with
                 workers := s.workers.set w .waiting,
                 unfinished := s.unfinished - 1,
                 trace := s.trace ++ [.acked w t] }
      | _ => Option.none

/-- One interleaving step: some thread takes an enabled step. -/
def Step (fail : τ → Bool) (s s2 : SysState τ) : Prop :=
  ∃ a, stepFn fail a s = some s2

/-- States reachable by a run of _process_tasks tasks n under the
environment fail, from its initial state, by any interleaving. -/
def Reachable (fail : τ → Bool) (tasks : List τ) (n : Nat) (s : SysState τ) : Prop :=
  Relation.ReflTransGen (Step fail) (initState n tasks) s

/-- Executable multi-step driver: run a list of scheduler actions. -/
def runActs (fail : τ → Bool) : List Act → SysState τ → Option (SysState τ)
  | [], s => some s
  | a :: acts, s =>
      match stepFn fail a s with
      | some s2 => runActs fail acts s2
      | Option.none => Option.none

/-- Tasks recorded as enqueued by the main thread, in order. -/
def enqueuedTasks (tr : List (SysEvent τ)) : List τ :=
  tr.filterMap fun e => match e with | .enqueued t => some t | _ => Option.none

/-- Tasks dequeued by workers, in trace order, with multiplicity. -/
def dequeuedTasks (tr : List (SysEvent τ)) : List τ :=
  tr.filterMap fun e => match e with | .dequeued _ t => some t | _ => Option.none

/-- Tasks whose operation was invoked, in trace order, with
multiplicity. -/
def execedTasks (tr : List (SysEvent τ)) : List τ :=
  tr.filterMap fun e => match e with | .executed _ t _ => some t | _ => Option.none

/-- Tasks acknowledged with task_done. -/
def ackedTasks (tr : List (SysEvent τ)) : List τ :=
  tr.filterMap fun e => match e with | .acked _ t => some t | _ => Option.none

/-- Worker and task of every executed event whose operation raised. -/
def failExecPairs (tr : List (SysEvent τ)) : List (Nat × τ) :=
  tr.filterMap fun e =>
    match e with
    | .executed w t true => some (w, t)
    | _ => Option.none

/-- Worker and task of every logged error event. -/
def loggedPairs (tr : List (SysEvent τ)) : List (Nat × τ) :=
  tr.filterMap fun e =>
    match e with
    | .loggedError w t => some (w, t)
    | _ => Option.none

/-- Number of spawned events in the history. -/
def spawnedCount (tr : List (SysEvent τ)) : Nat :=
  tr.countP fun e => match e with | .spawned _ => true | _ => false

/-- Number of stop sentinels put by the main thread. -/
def sentinelPutCount (tr : List (SysEvent τ)) : Nat :=
  tr.countP fun e => match e with | .sentinelPut => true | _ => false

/-- Workers that consumed a stop sentinel, in order. -/
def consumedWorkers (tr : List (SysEvent τ)) : List Nat :=
  tr.filterMap fun e => match e with | .sentinelConsumed w => some w | _ => Option.none

/-- Task held by a worker in the running state, if any. -/
@[simp] def runningOf : WStatus τ → Option τ
  | .running t => some t
  | _ => Option.none

/-- Task held by a worker in the acking state, if any. -/
@[simp] def ackingOf : WStatus τ → Option τ
  | .acking t => some t
  | _ => Option.none

/-- Test for a terminated worker. -/
@[simp] def isStoppedB : WStatus τ → Bool
  | .stopped => true
  | _ => false

/-- Tasks currently held by a worker between get and func invocation. -/
def runningTasks (ws : List (WStatus τ)) : List τ :=
  ws.filterMap runningOf

/-- Tasks currently held by a worker between func returning or raising
and task_done. -/
def ackingTasks (ws : List (WStatus τ)) : List τ :=
  ws.filterMap ackingOf

/-- Tasks dequeued but not yet acknowledged. -/
def heldTasks (ws : List (WStatus τ)) : List τ :=
  runningTasks ws ++ ackingTasks ws

/-- Task items currently in the queue. -/
def qTasks (items : List (QItem τ)) : List τ :=
  items.filterMap fun it => match it with | .task t => some t | _ => Option.none

/-- Number of sentinel items currently in the queue. -/
def qSentinels (items : List (QItem τ)) : Nat :=
  items.countP fun it => match it with | .sentinel => true | _ => false

/-- Number of workers that have terminated. -/
def stoppedCount (ws : List (WStatus τ)) : Nat :=
  ws.countP isStoppedB

/-- Trace of the spawn loop: one spawned event per worker index. -/
def spawnPart (n : Nat) : List (SysEvent τ) :=
  (List.range n).map .spawned

/-- Events that the system can record between worker start and the join
barrier. -/
def isWorkEvent : SysEvent τ → Prop
  | .enqueued _ => True
  | .dequeued _ _ => True
  | .executed _ _ _ => True
  | .loggedError _ _ => True
  | .acked _ _ => True
  | _ => False

/-- Events that the system can record after the join barrier. -/
def isShutdownEvent : SysEvent τ → Prop
  | .sentinelPut => True
  | .sentinelConsumed _ => True
  | .returnedEv => True
  | _ => False

end ProcessTasks

namespace ProcessTasks

/-- No worker status in the list is notStarted. -/
def NoneNotStarted (ws : List (WStatus τ)) : Prop :=
  ∀ st ∈ ws, st ≠ .notStarted

/-- Shape of the history before the join barrier: the complete spawn
loop trace followed by work events only. -/
def PreJoinShape (n : Nat) (tr : List (SysEvent τ)) : Prop :=
  ∃ mid, tr = spawnPart n ++ mid ∧ ∀ e ∈ mid, isWorkEvent e

/-- Shape of the history after the join barrier: the spawn loop trace,
then work events, then the barrier event, then shutdown events only. -/
def PostJoinShape (n : Nat) (tr : List (SysEvent τ)) : Prop :=
  ∃ mid post, tr = spawnPart n ++ mid ++ SysEvent.joinedQueue :: post ∧
    (∀ e ∈ mid, isWorkEvent e) ∧ (∀ e ∈ post, isShutdownEvent e)

/-- Facts that hold from the moment queue.join() returns: every task
was enqueued, the queue holds no task items, no worker holds a task,
and every enqueued task has been acknowledged by task_done. -/
def PostJoinFacts (tasks : List τ) (n : Nat) (s : SysState τ) : Prop :=
  enqueuedTasks s.trace = tasks ∧
  qTasks s.qItems = [] ∧
  heldTasks s.workers = [] ∧
  (ackedTasks s.trace).Perm tasks ∧
  PostJoinShape n s.trace

/-- Stage dependent part of the reachability invariant, following the
program counter of _process_tasks. -/
def StageInv (tasks : List τ) (n : Nat) (s : SysState τ) : Prop :=
  match s.main with
  | .spawning k pending =>
      pending = tasks ∧ k ≤ n ∧
      s.trace = spawnPart k ∧
      s.qItems = [] ∧ s.unfinished = 0 ∧
      s.workers = List.replicate k .waiting ++ List.replicate (n - k) .notStarted
  | .enqueuing pending =>
      (∃ done, tasks = done ++ pending ∧ enqueuedTasks s.trace = done) ∧
      PreJoinShape n s.trace ∧ NoneNotStarted s.workers ∧
      qSentinels s.qItems = 0 ∧ sentinelPutCount s.trace = 0 ∧
      consumedWorkers s.trace = []
  | .joining =>
      enqueuedTasks s.trace = tasks ∧
      PreJoinShape n s.trace ∧ NoneNotStarted s.workers ∧
      qSentinels s.qItems = 0 ∧ sentinelPutCount s.trace = 0 ∧
      consumedWorkers s.trace = []
  | .stopping k =>
      k ≤ n ∧ PostJoinFacts tasks n s ∧ sentinelPutCount s.trace = k
  | .threadJoin i =>
      PostJoinFacts tasks n s ∧ sentinelPutCount s.trace = n ∧
      (∀ j, j < i → s.workers[j]? = some .stopped)
  | .returned =>
      PostJoinFacts tasks n s ∧ sentinelPutCount s.trace = n ∧
      (∀ st ∈ s.workers, st = .stopped)

/-- Reachability invariant of the _process_tasks transition system for
a run on the given task list with n workers.  The henq, hdeq and hexe
fields are the conservation laws of the queue protocol: every enqueued
task is in the queue, held by a worker, or acknowledged; every dequeue
is matched by a pending or completed invocation; every invocation is
matched by a pending or completed acknowledgment.  hunf is the exact
value of the queue.Queue unfinished counter.  hlog records that a
logged error event exists exactly for each raising execution. -/
structure Inv (tasks : List τ) (n : Nat) (s : SysState τ) : Prop where
  hlen : s.workers.length = n
  henq : Multiset.ofList (enqueuedTasks s.trace) =
      Multiset.ofList (qTasks s.qItems) + Multiset.ofList (runningTasks s.workers) +
      Multiset.ofList (ackingTasks s.workers) + Multiset.ofList (ackedTasks s.trace)
  hdeq : Multiset.ofList (dequeuedTasks s.trace) =
      Multiset.ofList (runningTasks s.workers) + Multiset.ofList (execedTasks s.trace)
  hexe : Multiset.ofList (execedTasks s.trace) =
      Multiset.ofList (ackingTasks s.workers) + Multiset.ofList (ackedTasks s.trace)
  hunf : s.unfinished = (qTasks s.qItems).length + qSentinels s.qItems +
      (runningTasks s.workers).length + (ackingTasks s.workers).length +
      (consumedWorkers s.trace).length
  hlog : loggedPairs s.trace = failExecPairs s.trace
  hcons : (consumedWorkers s.trace).length = stoppedCount s.workers
  hconsNd : (consumedWorkers s.trace).Nodup
  hconsSt : ∀ w ∈ consumedWorkers s.trace, s.workers[w]? = some WStatus.stopped
  hstage : StageInv tasks n s

/-- Every spawned event precedes every enqueued event: at any spawned
event, no task had been put on the queue yet. -/
def spawnCompleteBeforeWork (tr : List (SysEvent τ)) : Prop :=
  ∀ l w r, tr = l ++ SysEvent.spawned w :: r → enqueuedTasks l = []

/-- Every stop sentinel is put only after the join barrier fired. -/
def sentinelsAfterBarrier (tr : List (SysEvent τ)) : Prop :=
  ∀ l r, tr = l ++ SysEvent.sentinelPut :: r → SysEvent.joinedQueue ∈ l

end ProcessTasks

/-- Remote that answers every creation call successfully with a fixed
identifier per resource kind. -/
def okRemote : Remote :=
  { createClaimCall := fun _ => .ok (.dict [("id", .str "CLM1")])
  , submitInvoicesCall := fun _ => .ok (.dict [("id", .str "INV1")])
  , submitCreditNoteCall := fun _ => .ok (.dict [("id", .str "CRN1")]) }

/-- Remote whose claim creation fails with a RequestError. -/
def failRemote : Remote :=
  { okRemote with createClaimCall := fun _ => .error (.requestError "remote call failed") }

/-- Remote whose claim creation succeeds but returns a mapping without
an id key. -/
def noIdRemote : Remote :=
  { okRemote with createClaimCall := fun _ => .ok (.dict [("uuid", .str "u1")]) }

/-- Scalar claim fields of a well formed bundled claim, covering every
required parameter of create_claim. -/
def scalarClaimFields : List (String × PyVal) :=
  [("payer_code", .int 1), ("payer_name", .str "P"), ("patient_name", .str "Pt"),
   ("member_number", .str "M"), ("scheme_name", .str "S"), ("visit_number", .str "V"),
   ("visit_start", .str "t0"), ("visit_end", .str "t1"), ("icd10_codes", .list [])]

/-- Invoice record carrying one nested attachment. -/
def invWithAtt : PyVal := .dict
  [("invoice_number", .str "I1"), ("invoice_date", .str "d"), ("lines", .list []),
   ("invoice_attachments", .list [.dict [("path_to_attachment", .str "a.pdf")]])]

/-- Invoice record with no attachments. -/
def invPlain : PyVal := .dict
  [("invoice_number", .str "I2"), ("invoice_date", .str "d"), ("lines", .list [])]

/-- Credit note record carrying one nested attachment. -/
def crnWithAtt : PyVal := .dict
  [("invoice_number", .str "C1"), ("invoice_date", .str "d"), ("lines", .list []),
   ("crn_attachments", .list [.dict [("path_to_attachment", .str "x.pdf")]])]

/-- Bundled claim with one invoice that has a nonempty nested
attachment list. -/
def invoiceAttBundle : List (String × PyVal) :=
  scalarClaimFields ++ [("invoices", .list [invWithAtt])]

/-- Bundled claim with one credit note that has a nonempty nested
attachment list. -/
def crnAttBundle : List (String × PyVal) :=
  scalarClaimFields ++ [("credit_notes", .list [crnWithAtt])]

/-- The worked example of the specification: one bundled claim with two
invoices, the first carrying one attachment and the second none, and no
credit notes. -/
def exampleScenarioBundle : List (String × PyVal) :=
  scalarClaimFields ++ [("invoices", .list [invWithAtt, invPlain])]

/-- Bundled claim with a single claim level attachment. -/
def claimAttBundle : List (String × PyVal) :=
  scalarClaimFields ++
  [("claim_attachments",
    .list [.dict [("path_to_attachment", .str "c.pdf"),
                  ("attachment_type", .str "CLAIM_FORM")]])]

/-- The single attachment task produced by claimAttBundle. -/
def demoQTask : QTask :=
  ⟨.submitClaimAttachment, [.str "CLM1", .str "c.pdf", .str "CLAIM_FORM", .none]⟩

namespace ProcessTasks

/-- Schedule of a complete run with one worker and one task: spawn,
enqueue, drain, join, stop. -/
def demoActs : List Act :=
  [.mainAct, .mainAct, .mainAct, .mainAct,
   .workerAct 0, .workerAct 0, .workerAct 0,
   .mainAct, .mainAct, .mainAct,
   .workerAct 0, .mainAct, .mainAct]

/-- Final state of the demo schedule on one Nat task with a
non-raising operation. -/
def demoRunNat : SysState Nat :=
  (runActs (fun _ => false) demoActs (initState 1 [0])).getD (initState 1 [0])

/-- Final state of the demo schedule on one Nat task whose operation
raises. -/
def demoRunFail : SysState Nat :=
  (runActs (fun _ => true) demoActs (initState 1 [5])).getD (initState 1 [5])

/-- Final state of the demo schedule on the task list built from
claimAttBundle. -/
def demoRunQ : SysState QTask :=
  (runActs (fun _ => false) demoActs (initState 1 [demoQTask])).getD
    (initState 1 [demoQTask])

end ProcessTasks

namespace ProcessTasks

theorem filterMap_cons_toList (f : α → Option β) (a : α) (l : List α) :
    List.filterMap f (a :: l) = (f a).toList ++ List.filterMap f l := by
  cases h : f a <;> simp [List.filterMap_cons, h]

theorem perm_swap_outer (u v w : List α) : (u ++ (w ++ v)).Perm (v ++ (w ++ u)) := by
  have hA : (u ++ (w ++ v)).Perm (w ++ (v ++ u)) := by
    have h := @List.perm_append_comm α u (w ++ v)
    simpa [List.append_assoc] using h
  have hB : (v ++ (w ++ u)).Perm (w ++ (u ++ v)) := by
    have h := @List.perm_append_comm α v (w ++ u)
    simpa [List.append_assoc] using h
  exact hA.trans ((List.Perm.append_left w List.perm_append_comm).trans hB.symm)

theorem getElem?_append_cons (l₁ l₂ : List α) (b : α) :
    (l₁ ++ b :: l₂)[l₁.length]? = some b := by
  induction l₁ with
  | nil => simp
  | cons x xs ih => simpa using ih

theorem set_append_cons (l₁ l₂ : List α) (a b : α) :
    (l₁ ++ b :: l₂).set l₁.length a = l₁ ++ a :: l₂ := by
  induction l₁ with
  | nil => rfl
  | cons x xs ih =>
      simp only [List.cons_append, List.length_cons, List.set_cons_succ, ih]

theorem filterMap_set_perm (f : α → Option β) :
    ∀ (l : List α) (n : Nat) (a b : α), l[n]? = some b →
    ((l.set n a).filterMap f ++ (f b).toList).Perm
      (l.filterMap f ++ (f a).toList) := by
  intro l
  induction l with
  | nil => intro n a b h; simp at h
  | cons x xs ih =>
      intro n a b h
      cases n with
      | zero =>
          simp only [List.getElem?_cons_zero, Option.some.injEq] at h
          subst h
          rw [List.set_cons_zero, filterMap_cons_toList, filterMap_cons_toList,
            List.append_assoc, List.append_assoc]
          exact perm_swap_outer _ _ _
      | succ m =>
          simp only [List.getElem?_cons_succ] at h
          have hperm := ih m a b h
          rw [List.set_cons_succ, filterMap_cons_toList, filterMap_cons_toList,
            List.append_assoc, List.append_assoc]
          exact List.Perm.append_left _ hperm

theorem countP_set_eq (p : α → Bool) :
    ∀ (l : List α) (n : Nat) (a b : α), l[n]? = some b →
    (l.set n a).countP p + (if p b then 1 else 0) =
      l.countP p + (if p a then 1 else 0) := by
  intro l
  induction l with
  | nil => intro n a b h; simp at h
  | cons x xs ih =>
      intro n a b h
      cases n with
      | zero =>
          simp only [List.getElem?_cons_zero, Option.some.injEq] at h
          subst h
          simp only [List.set_cons_zero, List.countP_cons]
          omega
      | succ m =>
          simp only [List.getElem?_cons_succ] at h
          have hm := ih m a b h
          simp only [List.set_cons_succ, List.countP_cons]
          omega

theorem mem_left_of_split_not_right {v : α} :
    ∀ {X l r : List α} {Y : List α}, X ++ Y = l ++ v :: r → v ∉ Y →
    ∀ e ∈ l, e ∈ X := by
  intro X
  induction X with
  | nil =>
      intro l r Y h hv e he
      rw [List.nil_append] at h
      subst h
      exact (hv (List.mem_append_right l (List.mem_cons_self v r))).elim
  | cons x xs ih =>
      intro l r Y h hv e he
      cases l with
      | nil => cases he
      | cons a l2 =>
          simp only [List.cons_append, List.cons.injEq] at h
          rcases h with ⟨rfl, h2⟩
          rcases List.mem_cons.mp he with rfl | he2
          · exact List.mem_cons_self _ _
          · exact List.mem_cons_of_mem _ (ih h2 hv e he2)

theorem mem_left_of_split_after {y v : α} :
    ∀ {X l r : List α} {Z : List α}, X ++ y :: Z = l ++ v :: r → v ∉ X →
    v ≠ y → y ∈ l := by
  intro X
  induction X with
  | nil =>
      intro l r Z h hvX hvy
      cases l with
      | nil =>
          simp only [List.nil_append, List.cons.injEq] at h
          exact absurd h.1.symm hvy
      | cons a l2 =>
          simp only [List.nil_append, List.cons_append, List.cons.injEq] at h
          exact h.1 ▸ List.mem_cons_self _ _
  | cons x xs ih =>
      intro l r Z h hvX hvy
      cases l with
      | nil =>
          simp only [List.cons_append, List.nil_append, List.cons.injEq] at h
          exact absurd (h.1 ▸ List.mem_cons_self x xs) hvX
      | cons a l2 =>
          simp only [List.cons_append, List.cons.injEq] at h
          rcases h with ⟨rfl, h2⟩
          exact List.mem_cons_of_mem _
            (ih h2 (fun hm => hvX (List.mem_cons_of_mem _ hm)) hvy)

end ProcessTasks

namespace ProcessTasks

@[simp] theorem enqueuedTasks_nil : enqueuedTasks ([] : List (SysEvent τ)) = [] := rfl

@[simp] theorem dequeuedTasks_nil : dequeuedTasks ([] : List (SysEvent τ)) = [] := rfl

@[simp] theorem execedTasks_nil : execedTasks ([] : List (SysEvent τ)) = [] := rfl

@[simp] theorem ackedTasks_nil : ackedTasks ([] : List (SysEvent τ)) = [] := rfl

@[simp] theorem failExecPairs_nil : failExecPairs ([] : List (SysEvent τ)) = [] := rfl

@[simp] theorem loggedPairs_nil : loggedPairs ([] : List (SysEvent τ)) = [] := rfl

@[simp] theorem consumedWorkers_nil : consumedWorkers ([] : List (SysEvent τ)) = [] := rfl

@[simp] theorem spawnedCount_nil : spawnedCount ([] : List (SysEvent τ)) = 0 := rfl

@[simp] theorem sentinelPutCount_nil : sentinelPutCount ([] : List (SysEvent τ)) = 0 := rfl

@[simp] theorem enqueuedTasks_append (tr tr2 : List (SysEvent τ)) :
    enqueuedTasks (tr ++ tr2) = enqueuedTasks tr ++ enqueuedTasks tr2 :=
  List.filterMap_append tr tr2 _

@[simp] theorem dequeuedTasks_append (tr tr2 : List (SysEvent τ)) :
    dequeuedTasks (tr ++ tr2) = dequeuedTasks tr ++ dequeuedTasks tr2 :=
  List.filterMap_append tr tr2 _

@[simp] theorem execedTasks_append (tr tr2 : List (SysEvent τ)) :
    execedTasks (tr ++ tr2) = execedTasks tr ++ execedTasks tr2 :=
  List.filterMap_append tr tr2 _

@[simp] theorem ackedTasks_append (tr tr2 : List (SysEvent τ)) :
    ackedTasks (tr ++ tr2) = ackedTasks tr ++ ackedTasks tr2 :=
  List.filterMap_append tr tr2 _

@[simp] theorem failExecPairs_append (tr tr2 : List (SysEvent τ)) :
    failExecPairs (tr ++ tr2) = failExecPairs tr ++ failExecPairs tr2 :=
  List.filterMap_append tr tr2 _

@[simp] theorem loggedPairs_append (tr tr2 : List (SysEvent τ)) :
    loggedPairs (tr ++ tr2) = loggedPairs tr ++ loggedPairs tr2 :=
  List.filterMap_append tr tr2 _

@[simp] theorem consumedWorkers_append (tr tr2 : List (SysEvent τ)) :
    consumedWorkers (tr ++ tr2) = consumedWorkers tr ++ consumedWorkers tr2 :=
  List.filterMap_append tr tr2 _

@[simp] theorem spawnedCount_append (tr tr2 : List (SysEvent τ)) :
    spawnedCount (tr ++ tr2) = spawnedCount tr + spawnedCount tr2 :=
  List.countP_append _ tr tr2

@[simp] theorem sentinelPutCount_append (tr tr2 : List (SysEvent τ)) :
    sentinelPutCount (tr ++ tr2) = sentinelPutCount tr + sentinelPutCount tr2 :=
  List.countP_append _ tr tr2

@[simp] theorem enqueuedTasks_cons (e : SysEvent τ) (tr : List (SysEvent τ)) :
    enqueuedTasks (e :: tr) =
      (match e with | .enqueued t => [t] | _ => []) ++ enqueuedTasks tr := by
  cases e <;> rfl

@[simp] theorem dequeuedTasks_cons (e : SysEvent τ) (tr : List (SysEvent τ)) :
    dequeuedTasks (e :: tr) =
      (match e with | .dequeued _ t => [t] | _ => []) ++ dequeuedTasks tr := by
  cases e <;> rfl

@[simp] theorem execedTasks_cons (e : SysEvent τ) (tr : List (SysEvent τ)) :
    execedTasks (e :: tr) =
      (match e with | .executed _ t _ => [t] | _ => []) ++ execedTasks tr := by
  cases e <;> rfl

@[simp] theorem ackedTasks_cons (e : SysEvent τ) (tr : List (SysEvent τ)) :
    ackedTasks (e :: tr) =
      (match e with | .acked _ t => [t] | _ => []) ++ ackedTasks tr := by
  cases e <;> rfl

@[simp] theorem failExecPairs_cons (e : SysEvent τ) (tr : List (SysEvent τ)) :
    failExecPairs (e :: tr) =
      (match e with | .executed w t true => [(w, t)] | _ => []) ++ failExecPairs tr := by
  cases e
  case executed w t raised => cases raised <;> rfl
  all_goals rfl

@[simp] theorem loggedPairs_cons (e : SysEvent τ) (tr : List (SysEvent τ)) :
    loggedPairs (e :: tr) =
      (match e with | .loggedError w t => [(w, t)] | _ => []) ++ loggedPairs tr := by
  cases e <;> rfl

@[simp] theorem consumedWorkers_cons (e : SysEvent τ) (tr : List (SysEvent τ)) :
    consumedWorkers (e :: tr) =
      (match e with | .sentinelConsumed w => [w] | _ => []) ++ consumedWorkers tr := by
  cases e <;> rfl

@[simp] theorem spawnedCount_cons (e : SysEvent τ) (tr : List (SysEvent τ)) :
    spawnedCount (e :: tr) =
      (match e with | .spawned _ => 1 | _ => 0) + spawnedCount tr := by
  cases e <;> simp [spawnedCount, List.countP_cons] <;> omega

@[simp] theorem sentinelPutCount_cons (e : SysEvent τ) (tr : List (SysEvent τ)) :
    sentinelPutCount (e :: tr) =
      (match e with | .sentinelPut => 1 | _ => 0) + sentinelPutCount tr := by
  cases e <;> simp [sentinelPutCount, List.countP_cons] <;> omega

@[simp] theorem qTasks_nil : qTasks ([] : List (QItem τ)) = [] := rfl

@[simp] theorem qTasks_append (q q2 : List (QItem τ)) :
    qTasks (q ++ q2) = qTasks q ++ qTasks q2 :=
  List.filterMap_append q q2 _

@[simp] theorem qTasks_cons (it : QItem τ) (q : List (QItem τ)) :
    qTasks (it :: q) =
      (match it with | .task t => [t] | .sentinel => []) ++ qTasks q := by
  cases it <;> rfl

@[simp] theorem qSentinels_nil : qSentinels ([] : List (QItem τ)) = 0 := rfl

@[simp] theorem qSentinels_append (q q2 : List (QItem τ)) :
    qSentinels (q ++ q2) = qSentinels q + qSentinels q2 :=
  List.countP_append _ q q2

@[simp] theorem qSentinels_cons (it : QItem τ) (q : List (QItem τ)) :
    qSentinels (it :: q) =
      (match it with | .task _ => 0 | .sentinel => 1) + qSentinels q := by
  cases it <;> simp [qSentinels, List.countP_cons] <;> omega

end ProcessTasks

namespace ProcessTasks

theorem spawnPart_succ (n : Nat) :
    (spawnPart (n + 1) : List (SysEvent τ)) = spawnPart n ++ [.spawned n] := by
  simp [spawnPart, List.range_succ]

theorem filterMap_spawnPart_nil (f : SysEvent τ → Option β)
    (h : ∀ w, f (.spawned w) = Option.none) (n : Nat) :
    (spawnPart n : List (SysEvent τ)).filterMap f = [] := by
  rw [List.filterMap_eq_nil_iff]
  intro e he
  rcases List.mem_map.mp he with ⟨w, _, rfl⟩
  exact h w

@[simp] theorem enqueuedTasks_spawnPart (n : Nat) :
    enqueuedTasks (spawnPart n : List (SysEvent τ)) = [] :=
  filterMap_spawnPart_nil _ (fun _ => rfl) n

@[simp] theorem dequeuedTasks_spawnPart (n : Nat) :
    dequeuedTasks (spawnPart n : List (SysEvent τ)) = [] :=
  filterMap_spawnPart_nil _ (fun _ => rfl) n

@[simp] theorem execedTasks_spawnPart (n : Nat) :
    execedTasks (spawnPart n : List (SysEvent τ)) = [] :=
  filterMap_spawnPart_nil _ (fun _ => rfl) n

@[simp] theorem ackedTasks_spawnPart (n : Nat) :
    ackedTasks (spawnPart n : List (SysEvent τ)) = [] :=
  filterMap_spawnPart_nil _ (fun _ => rfl) n

@[simp] theorem failExecPairs_spawnPart (n : Nat) :
    failExecPairs (spawnPart n : List (SysEvent τ)) = [] :=
  filterMap_spawnPart_nil _ (fun _ => rfl) n

@[simp] theorem loggedPairs_spawnPart (n : Nat) :
    loggedPairs (spawnPart n : List (SysEvent τ)) = [] :=
  filterMap_spawnPart_nil _ (fun _ => rfl) n

@[simp] theorem consumedWorkers_spawnPart (n : Nat) :
    consumedWorkers (spawnPart n : List (SysEvent τ)) = [] :=
  filterMap_spawnPart_nil _ (fun _ => rfl) n

@[simp] theorem sentinelPutCount_spawnPart (n : Nat) :
    sentinelPutCount (spawnPart n : List (SysEvent τ)) = 0 := by
  simp only [sentinelPutCount, spawnPart, List.countP_map]
  simp [Function.comp_def]

@[simp] theorem spawnedCount_spawnPart (n : Nat) :
    spawnedCount (spawnPart n : List (SysEvent τ)) = n := by
  simp only [spawnedCount, spawnPart, List.countP_map]
  simp [Function.comp_def]

theorem filterMap_set_msum (f : α → Option β) (l : List α) (n : Nat) (a b : α)
    (h : l[n]? = some b) :
    Multiset.ofList ((l.set n a).filterMap f) + Multiset.ofList (f b).toList =
      Multiset.ofList (l.filterMap f) + Multiset.ofList (f a).toList := by
  have hp := filterMap_set_perm f l n a b h
  have hc := Multiset.coe_eq_coe.mpr hp
  simpa [← Multiset.coe_add] using hc

theorem filterMap_set_length (f : α → Option β) (l : List α) (n : Nat) (a b : α)
    (h : l[n]? = some b) :
    ((l.set n a).filterMap f).length + (f b).toList.length =
      (l.filterMap f).length + (f a).toList.length := by
  have hc := congrArg Multiset.card (filterMap_set_msum f l n a b h)
  simpa [Multiset.coe_card] using hc

theorem mem_of_getElem?_eq {l : List α} {n : Nat} {a : α} (h : l[n]? = some a) :
    a ∈ l := by
  rcases List.getElem?_eq_some.mp h with ⟨hlt, rfl⟩
  exact List.getElem_mem hlt

theorem Inv_init (tasks : List τ) (n : Nat) : Inv tasks n (initState n tasks) := by
  refine ⟨by simp [initState], ?_, ?_, ?_, ?_, ?_, ?_, ?_, ?_, ?_⟩ <;>
    simp [initState, StageInv, runningTasks, ackingTasks, stoppedCount,
      List.filterMap_replicate, List.countP_replicate, spawnPart]

end ProcessTasks

namespace ProcessTasks

theorem PreJoinShape_snoc {n : Nat} {tr : List (SysEvent τ)} (h : PreJoinShape n tr)
    (e : SysEvent τ) (he : isWorkEvent e) : PreJoinShape n (tr ++ [e]) := by
  obtain ⟨mid, rfl, hw⟩ := h
  refine ⟨mid ++ [e], by simp, ?_⟩
  intro x hx
  rcases List.mem_append.mp hx with hx | hx
  · exact hw x hx
  · rcases List.mem_singleton.mp hx with rfl
    exact he

theorem PostJoinShape_snoc {n : Nat} {tr : List (SysEvent τ)} (h : PostJoinShape n tr)
    (e : SysEvent τ) (he : isShutdownEvent e) : PostJoinShape n (tr ++ [e]) := by
  obtain ⟨mid, post, rfl, hw, hs⟩ := h
  refine ⟨mid, post ++ [e], by simp, hw, ?_⟩
  intro x hx
  rcases List.mem_append.mp hx with hx | hx
  · exact hs x hx
  · rcases List.mem_singleton.mp hx with rfl
    exact he

theorem Inv_step_main {tasks : List τ} {n : Nat} {s s2 : SysState τ} {fail : τ → Bool}
    (hinv : Inv tasks n s) (h : stepFn fail Act.mainAct s = some s2) :
    Inv tasks n s2 := by
  obtain ⟨hlen, henq, hdeq, hexe, hunf, hlog, hcons, hconsNd, hconsSt, hstage⟩ := hinv
  cases hm : s.main with
  | spawning k pending =>
      simp only [stepFn, hm] at h
      simp only [StageInv, hm] at hstage
      obtain ⟨rfl, hk, htr, hq, hu, hw⟩ := hstage
      rw [hlen] at h
      by_cases hkn : k < n
      · rw [if_pos hkn] at h
        injection h with h2
        subst h2
        have hrep : List.replicate (n - k) (WStatus.notStarted : WStatus τ) =
            .notStarted :: List.replicate (n - k - 1) .notStarted := by
          rw [← List.replicate_succ]
          congr 1
          omega
        have hset : (List.replicate k (WStatus.waiting : WStatus τ) ++
              WStatus.notStarted :: List.replicate (n - k - 1) .notStarted).set k .waiting =
            List.replicate (k + 1) .waiting ++ List.replicate (n - (k + 1)) .notStarted := by
          have h1 := set_append_cons (List.replicate k (WStatus.waiting : WStatus τ))
            (List.replicate (n - k - 1) .notStarted) .waiting .notStarted
          rw [List.length_replicate] at h1
          rw [h1, show (List.replicate k (WStatus.waiting : WStatus τ) ++
              WStatus.waiting :: List.replicate (n - k - 1) .notStarted) =
              (List.replicate k .waiting ++ [.waiting]) ++
                List.replicate (n - k - 1) .notStarted from by simp,
            ← List.replicate_succ']
          have hnk : n - k - 1 = n - (k + 1) := by omega
          rw [hnk]
        refine ⟨by simp [hlen], ?_, ?_, ?_, ?_, ?_, ?_, ?_, ?_, ?_⟩ <;>
          simp only [hw, hrep, hset, htr, hq, hu] <;>
          simp [StageInv, runningTasks, ackingTasks, stoppedCount, qTasks, qSentinels,
            List.filterMap_append, List.filterMap_replicate, List.countP_append,
            List.countP_replicate, spawnPart_succ]
        all_goals omega
      · rw [if_neg hkn] at h
        injection h with h2
        subst h2
        have hkn2 : k = n := by omega
        subst hkn2
        refine ⟨hlen, henq, hdeq, hexe, hunf, hlog, hcons, hconsNd, hconsSt, ?_⟩
        simp only [StageInv]
        refine ⟨⟨[], by simp, by rw [htr]; simp⟩, ⟨[], by rw [htr]; simp, by simp⟩, ?_, ?_, ?_, ?_⟩
        · intro st hst
          rw [hw] at hst
          simp at hst
          simp [hst]
        · rw [hq]; rfl
        · rw [htr]; simp
        · rw [htr]; simp
  | enqueuing pending =>
      simp only [stepFn, hm] at h
      simp only [StageInv, hm] at hstage
      obtain ⟨⟨done, hsplit, hdone⟩, hshape, hns, hqs, hsp, hcw⟩ := hstage
      cases pending with
      | nil =>
          injection h with h2
          subst h2
          refine ⟨hlen, henq, hdeq, hexe, hunf, hlog, hcons, hconsNd, hconsSt, ?_⟩
          simp only [StageInv]
          exact ⟨hdone.trans (by simpa using hsplit.symm), hshape, hns, hqs, hsp, hcw⟩
      | cons t rest =>
          injection h with h2
          subst h2
          refine ⟨by simpa using hlen, ?_, ?_, ?_, ?_, ?_, ?_, ?_, ?_, ?_⟩
          · simp only [enqueuedTasks_append, ackedTasks_append, qTasks_append]
            simp only [enqueuedTasks_cons, ackedTasks_cons, qTasks_cons]
            simp only [enqueuedTasks_nil, ackedTasks_nil, qTasks_nil]
            simp only [← Multiset.coe_add]
            rw [henq]
            abel
          · simpa using hdeq
          · simpa using hexe
          · simp [hqs]
            omega
          · simpa using hlog
          · simpa using hcons
          · simpa using hconsNd
          · simpa using hconsSt
          · simp only [StageInv]
            refine ⟨⟨done ++ [t], by rw [hsplit]; simp, by simp [hdone]⟩, ?_, hns, ?_, ?_, ?_⟩
            · exact PreJoinShape_snoc hshape _ trivial
            · simp [hqs]
            · simp [hsp]
            · simp [hcw]
  | joining =>
      simp only [stepFn, hm] at h
      simp only [StageInv, hm] at hstage
      obtain ⟨henqt, hshape, hns, hqs, hsp, hcw⟩ := hstage
      by_cases hu0 : s.unfinished = 0
      · rw [if_pos hu0] at h
        injection h with h2
        subst h2
        have hlen0 : (qTasks s.qItems).length = 0 ∧ (runningTasks s.workers).length = 0 ∧
            (ackingTasks s.workers).length = 0 := by
          have h5 := hunf
          rw [hqs, hcw] at h5
          simp at h5
          omega
        have hq1 : qTasks s.qItems = [] := List.eq_nil_of_length_eq_zero hlen0.1
        have hr1 : runningTasks s.workers = [] := List.eq_nil_of_length_eq_zero hlen0.2.1
        have ha1 : ackingTasks s.workers = [] := List.eq_nil_of_length_eq_zero hlen0.2.2
        have hperm : (ackedTasks s.trace).Perm tasks := by
          rw [hq1, hr1, ha1] at henq
          simp at henq
          rw [henqt] at henq
          exact henq.symm
        refine ⟨hlen, by simpa using henq, by simpa using hdeq, by simpa using hexe,
          by simpa using hunf, by simpa using hlog, by simpa using hcons,
          by simpa using hconsNd, by simpa using hconsSt, ?_⟩
        simp only [StageInv]
        refine ⟨Nat.zero_le n, ⟨by simpa using henqt, by simpa using hq1,
          by simp [heldTasks, hr1, ha1], by simpa using hperm, ?_⟩, ?_⟩
        · obtain ⟨mid, hmid, hwork⟩ := hshape
          exact ⟨mid, [], by simp [hmid], hwork, by simp⟩
        · simp [hsp]
      · rw [if_neg hu0] at h
        cases h
  | stopping k =>
      simp only [stepFn, hm] at h
      simp only [StageInv, hm] at hstage
      obtain ⟨hk, ⟨hpe, hpq, hph, hpa, hpshape⟩, hspc⟩ := hstage
      rw [hlen] at h
      by_cases hkn : k < n
      · rw [if_pos hkn] at h
        injection h with h2
        subst h2
        refine ⟨by simpa using hlen, ?_, by simpa using hdeq, by simpa using hexe, ?_,
          by simpa using hlog, by simpa using hcons, by simpa using hconsNd,
          by simpa using hconsSt, ?_⟩
        · simp only [enqueuedTasks_append, ackedTasks_append, qTasks_append,
            enqueuedTasks_cons, ackedTasks_cons, qTasks_cons, enqueuedTasks_nil,
            ackedTasks_nil, qTasks_nil, List.append_nil]
          exact henq
        · simp
          omega
        · simp only [StageInv]
          refine ⟨by omega, ⟨by simpa using hpe, by simpa using hpq, by simpa using hph,
            by simpa using hpa, PostJoinShape_snoc hpshape _ trivial⟩, by simp [hspc]⟩
      · rw [if_neg hkn] at h
        injection h with h2
        subst h2
        have hkn2 : k = n := by omega
        subst hkn2
        refine ⟨hlen, henq, hdeq, hexe, hunf, hlog, hcons, hconsNd, hconsSt, ?_⟩
        simp only [StageInv]
        exact ⟨⟨hpe, hpq, hph, hpa, hpshape⟩, hspc, fun j hj => absurd hj (by omega)⟩
  | threadJoin i =>
      simp only [stepFn, hm] at h
      simp only [StageInv, hm] at hstage
      obtain ⟨⟨hpe, hpq, hph, hpa, hpshape⟩, hspn, hjlt⟩ := hstage
      rw [hlen] at h
      by_cases hin : i < n
      · rw [if_pos hin] at h
        cases hwi : s.workers[i]? with
        | none => rw [hwi] at h; cases h
        | some st =>
            rw [hwi] at h
            cases st with
            | stopped =>
                injection h with h2
                subst h2
                refine ⟨hlen, henq, hdeq, hexe, hunf, hlog, hcons, hconsNd, hconsSt, ?_⟩
                simp only [StageInv]
                refine ⟨⟨hpe, hpq, hph, hpa, hpshape⟩, hspn, ?_⟩
                intro j hj
                rcases Nat.lt_or_ge j i with hji | hji
                · exact hjlt j hji
                · have : j = i := by omega
                  subst this
                  exact hwi
            | notStarted => cases h
            | waiting => cases h
            | running t => cases h
            | acking t => cases h
      · rw [if_neg hin] at h
        injection h with h2
        subst h2
        refine ⟨by simpa using hlen, ?_, by simpa using hdeq, by simpa using hexe, ?_,
          by simpa using hlog, by simpa using hcons, by simpa using hconsNd,
          by simpa using hconsSt, ?_⟩
        · simpa using henq
        · simpa using hunf
        · simp only [StageInv]
          refine ⟨⟨by simpa using hpe, by simpa using hpq, by simpa using hph,
            by simpa using hpa, PostJoinShape_snoc hpshape _ trivial⟩, by simp [hspn], ?_⟩
          intro st hst
          rcases List.mem_iff_getElem.mp hst with ⟨j, hjl, hjs⟩
          have hjn : j < n := by rw [hlen] at hjl; exact hjl
          have := hjlt j (by omega)
          rw [List.getElem?_eq_some] at this
          rcases this with ⟨hlt2, hval⟩
          rw [← hjs, hval]
  | returned => rw [stepFn.eq_def] at h; simp [hm] at h

end ProcessTasks

namespace ProcessTasks

theorem running_mem {ws : List (WStatus τ)} {w : Nat} {t : τ}
    (h : ws[w]? = some (.running t)) : t ∈ runningTasks ws :=
  List.mem_filterMap.mpr ⟨.running t, mem_of_getElem?_eq h, rfl⟩

theorem acking_mem {ws : List (WStatus τ)} {w : Nat} {t : τ}
    (h : ws[w]? = some (.acking t)) : t ∈ ackingTasks ws :=
  List.mem_filterMap.mpr ⟨.acking t, mem_of_getElem?_eq h, rfl⟩

theorem consumed_ne {s : SysState τ} {w : Nat} {st : WStatus τ}
    (hconsSt : ∀ v ∈ consumedWorkers s.trace, s.workers[v]? = some WStatus.stopped)
    (hws : s.workers[w]? = some st) (hst : st ≠ .stopped) :
    w ∉ consumedWorkers s.trace := by
  intro hmem
  rw [hconsSt w hmem] at hws
  exact hst (Option.some.injEq _ _ ▸ hws.symm ▸ rfl)

theorem Inv_step_worker {tasks : List τ} {n : Nat} {s s2 : SysState τ} {fail : τ → Bool}
    {w : Nat} (hinv : Inv tasks n s) (h : stepFn fail (Act.workerAct w) s = some s2) :
    Inv tasks n s2 := by
  obtain ⟨hlen, henq, hdeq, hexe, hunf, hlog, hcons, hconsNd, hconsSt, hstage⟩ := hinv
  simp only [stepFn] at h
  cases hws : s.workers[w]? with
  | none => rw [hws] at h; cases h
  | some st =>
      have hwlt : w < s.workers.length := by
        rcases List.getElem?_eq_some.mp hws with ⟨hl, _⟩
        exact hl
      cases st with
      | notStarted => rw [hws] at h; cases h
      | stopped => rw [hws] at h; cases h
      | waiting =>
          simp only [hws] at h
          cases hqi : s.qItems with
          | nil => rw [hqi] at h; cases h
          | cons it rest =>
              rw [hqi] at h
              cases it with
              | task t =>
                  injection h with h2
                  subst h2
                  have hrun : Multiset.ofList ((s.workers.set w (.running t)).filterMap runningOf) =
                      Multiset.ofList (s.workers.filterMap runningOf) + Multiset.ofList [t] := by
                    have hm := filterMap_set_msum runningOf s.workers w (.running t) .waiting hws
                    simpa using hm
                  have hack : Multiset.ofList ((s.workers.set w (.running t)).filterMap ackingOf) =
                      Multiset.ofList (s.workers.filterMap ackingOf) := by
                    have hm := filterMap_set_msum ackingOf s.workers w (.running t) .waiting hws
                    simpa using hm
                  have hrunl : ((s.workers.set w (.running t)).filterMap runningOf).length =
                      (s.workers.filterMap runningOf).length + 1 := by
                    have hc := congrArg Multiset.card hrun
                    simpa [Multiset.coe_card] using hc
                  have hackl : ((s.workers.set w (.running t)).filterMap ackingOf).length =
                      (s.workers.filterMap ackingOf).length := by
                    have hc := congrArg Multiset.card hack
                    simpa [Multiset.coe_card] using hc
                  have hqt : qTasks s.qItems = t :: qTasks rest := by rw [hqi]; simp
                  have hqsent : qSentinels s.qItems = qSentinels rest := by rw [hqi]; simp
                  refine ⟨by simpa using hlen, ?_, ?_, ?_, ?_, ?_, ?_, ?_, ?_, ?_⟩
                  · simp only [runningTasks, ackingTasks] at henq ⊢
                    simp only [enqueuedTasks_append, ackedTasks_append, enqueuedTasks_cons,
                      ackedTasks_cons, enqueuedTasks_nil, ackedTasks_nil, List.append_nil]
                    rw [hqt] at henq
                    rw [henq, hrun, hack]
                    have hsplit2 : Multiset.ofList (t :: qTasks rest) =
                        Multiset.ofList [t] + Multiset.ofList (qTasks rest) := by
                      have hca := Multiset.coe_add [t] (qTasks rest)
                      simpa using hca
                    rw [hsplit2]
                    abel
                  · simp only [runningTasks] at hdeq ⊢
                    simp only [dequeuedTasks_append, execedTasks_append, dequeuedTasks_cons,
                      execedTasks_cons, dequeuedTasks_nil, execedTasks_nil, List.append_nil]
                    simp only [← Multiset.coe_add]
                    rw [hdeq, hrun]
                    abel
                  · simp only [ackingTasks] at hexe ⊢
                    simp only [execedTasks_append, ackedTasks_append, execedTasks_cons,
                      ackedTasks_cons, execedTasks_nil, ackedTasks_nil, List.append_nil]
                    rw [hack]
                    exact hexe
                  · simp only [runningTasks, ackingTasks] at hunf ⊢
                    rw [hqt, hqsent] at hunf
                    simp only [consumedWorkers_append, consumedWorkers_cons,
                      consumedWorkers_nil, List.append_nil, hrunl, hackl]
                    simp at hunf ⊢
                    omega
                  · simp only [loggedPairs_append, failExecPairs_append, loggedPairs_cons,
                      failExecPairs_cons, loggedPairs_nil, failExecPairs_nil, List.append_nil]
                    exact hlog
                  · simp only [stoppedCount] at hcons ⊢
                    have hc := countP_set_eq isStoppedB s.workers w (.running t) .waiting hws
                    simp at hc
                    simp [hc]
                    exact hcons
                  · simpa using hconsNd
                  · intro v hv
                    simp only [consumedWorkers_append, consumedWorkers_cons,
                      consumedWorkers_nil, List.append_nil] at hv
                    have hv2 := hconsSt v hv
                    have hne : v ≠ w := by
                      intro hvw
                      subst hvw
                      rw [hws] at hv2
                      cases hv2
                    simp only []
                    rw [List.getElem?_set_ne (fun hh => hne hh.symm)]
                    exact hv2
                  · simp only [StageInv] at hstage ⊢
                    cases hm : s.main with
                    | spawning k pending =>
                        rw [hm] at hstage
                        rw [hstage.2.2.2.1] at hqi
                        cases hqi
                    | enqueuing pending =>
                        rw [hm] at hstage
                        obtain ⟨⟨done, hsplit, hdone⟩, hshape, hns, hqs, hsp, hcw⟩ := hstage
                        refine ⟨⟨done, hsplit, by simpa using hdone⟩,
                          PreJoinShape_snoc hshape _ trivial, ?_, ?_, ?_, ?_⟩
                        · intro x hx
                          rcases List.mem_or_eq_of_mem_set hx with hx | rfl
                          · exact hns x hx
                          · simp
                        · rw [hqi] at hqs
                          simpa using hqs
                        · simpa using hsp
                        · simpa using hcw
                    | joining =>
                        rw [hm] at hstage
                        obtain ⟨henqt, hshape, hns, hqs, hsp, hcw⟩ := hstage
                        refine ⟨by simpa using henqt,
                          PreJoinShape_snoc hshape _ trivial, ?_, ?_, ?_, ?_⟩
                        · intro x hx
                          rcases List.mem_or_eq_of_mem_set hx with hx | rfl
                          · exact hns x hx
                          · simp
                        · rw [hqi] at hqs
                          simpa using hqs
                        · simpa using hsp
                        · simpa using hcw
                    | stopping k =>
                        rw [hm] at hstage
                        have hpq := hstage.2.1.2.1
                        rw [hqi] at hpq
                        simp at hpq
                    | threadJoin i =>
                        rw [hm] at hstage
                        have hpq := hstage.1.2.1
                        rw [hqi] at hpq
                        simp at hpq
                    | returned =>
                        rw [hm] at hstage
                        have hall := hstage.2.2
                        have := hall _ (mem_of_getElem?_eq hws)
                        cases this
              | sentinel =>
                  injection h with h2
                  subst h2
                  have hrun : Multiset.ofList ((s.workers.set w .stopped).filterMap runningOf) =
                      Multiset.ofList (s.workers.filterMap runningOf) := by
                    simpa using filterMap_set_msum runningOf s.workers w .stopped .waiting hws
                  have hack : Multiset.ofList ((s.workers.set w .stopped).filterMap ackingOf) =
                      Multiset.ofList (s.workers.filterMap ackingOf) := by
                    simpa using filterMap_set_msum ackingOf s.workers w .stopped .waiting hws
                  have hrunl : ((s.workers.set w .stopped).filterMap runningOf).length =
                      (s.workers.filterMap runningOf).length := by
                    have hc := congrArg Multiset.card hrun
                    simpa [Multiset.coe_card] using hc
                  have hackl : ((s.workers.set w .stopped).filterMap ackingOf).length =
                      (s.workers.filterMap ackingOf).length := by
                    have hc := congrArg Multiset.card hack
                    simpa [Multiset.coe_card] using hc
                  have hqt : qTasks s.qItems = qTasks rest := by rw [hqi]; simp
                  have hqsent : qSentinels s.qItems = qSentinels rest + 1 := by
                    rw [hqi]; simp; omega
                  have hstop : (s.workers.set w .stopped).countP isStoppedB =
                      s.workers.countP isStoppedB + 1 := by
                    have hc := countP_set_eq isStoppedB s.workers w .stopped .waiting hws
                    simpa using hc
                  have hwnotin : w ∉ consumedWorkers s.trace :=
                    consumed_ne hconsSt hws (fun hcon => by cases hcon)
                  refine ⟨by simpa using hlen, ?_, ?_, ?_, ?_, ?_, ?_, ?_, ?_, ?_⟩
                  · simp only [runningTasks, ackingTasks] at henq ⊢
                    simp only [enqueuedTasks_append, ackedTasks_append, enqueuedTasks_cons,
                      ackedTasks_cons, enqueuedTasks_nil, ackedTasks_nil, List.append_nil]
                    rw [hqt] at henq
                    rw [henq, hrun, hack]
                  · simp only [runningTasks] at hdeq ⊢
                    simp only [dequeuedTasks_append, execedTasks_append, dequeuedTasks_cons,
                      execedTasks_cons, dequeuedTasks_nil, execedTasks_nil, List.append_nil]
                    rw [hdeq, hrun]
                  · simp only [ackingTasks] at hexe ⊢
                    simp only [execedTasks_append, ackedTasks_append, execedTasks_cons,
                      ackedTasks_cons, execedTasks_nil, ackedTasks_nil, List.append_nil]
                    rw [hack]
                    exact hexe
                  · simp only [runningTasks, ackingTasks] at hunf ⊢
                    rw [hqt, hqsent] at hunf
                    simp only [consumedWorkers_append, consumedWorkers_cons,
                      consumedWorkers_nil, hrunl, hackl]
                    simp at hunf ⊢
                    omega
                  · simp only [loggedPairs_append, failExecPairs_append, loggedPairs_cons,
                      failExecPairs_cons, loggedPairs_nil, failExecPairs_nil, List.append_nil]
                    exact hlog
                  · simp only [stoppedCount] at hcons ⊢
                    simp only [consumedWorkers_append, consumedWorkers_cons,
                      consumedWorkers_nil]
                    simp [hstop]
                    omega
                  · simp only [consumedWorkers_append, consumedWorkers_cons,
                      consumedWorkers_nil]
                    rw [List.nodup_append]
                    refine ⟨hconsNd, List.nodup_singleton w, ?_⟩
                    intro x hx hx2
                    rcases List.mem_singleton.mp hx2 with rfl
                    exact hwnotin hx
                  · intro v hv
                    simp only [consumedWorkers_append, consumedWorkers_cons,
                      consumedWorkers_nil] at hv
                    rcases List.mem_append.mp hv with hv | hv
                    · have hv2 := hconsSt v hv
                      have hne : v ≠ w := fun hvw => hwnotin (hvw ▸ hv)
                      rw [List.getElem?_set_ne (fun hh => hne hh.symm)]
                      exact hv2
                    · rcases List.mem_singleton.mp hv with rfl
                      rw [List.getElem?_set_self hwlt]
                  · simp only [StageInv] at hstage ⊢
                    cases hm : s.main with
                    | spawning k pending =>
                        rw [hm] at hstage
                        rw [hstage.2.2.2.1] at hqi
                        cases hqi
                    | enqueuing pending =>
                        rw [hm] at hstage
                        have hqs := hstage.2.2.2.1
                        rw [hqi] at hqs
                        simp at hqs
                    | joining =>
                        rw [hm] at hstage
                        have hqs := hstage.2.2.2.1
                        rw [hqi] at hqs
                        simp at hqs
                    | stopping k =>
                        rw [hm] at hstage
                        obtain ⟨hk, ⟨hpe, hpq, hph, hpa, hpshape⟩, hspc⟩ := hstage
                        have hphr := List.append_eq_nil.mp (by simpa [heldTasks] using hph)
                        have hrunNil : (s.workers.set w .stopped).filterMap runningOf = [] := by
                          have hz := hrun
                          simp only [runningTasks] at hphr
                          rw [hphr.1] at hz
                          simpa using hz
                        have hackNil : (s.workers.set w .stopped).filterMap ackingOf = [] := by
                          have hz := hack
                          simp only [ackingTasks] at hphr
                          rw [hphr.2] at hz
                          simpa using hz
                        refine ⟨hk, ⟨by simpa using hpe, ?_, ?_, by simpa using hpa,
                          PostJoinShape_snoc hpshape _ trivial⟩, by simpa using hspc⟩
                        · rw [hqi] at hpq
                          simpa using hpq
                        · simp [heldTasks, runningTasks, ackingTasks, hrunNil, hackNil]
                    | threadJoin i =>
                        rw [hm] at hstage
                        obtain ⟨⟨hpe, hpq, hph, hpa, hpshape⟩, hspn, hjlt⟩ := hstage
                        have hphr := List.append_eq_nil.mp (by simpa [heldTasks] using hph)
                        have hrunNil : (s.workers.set w .stopped).filterMap runningOf = [] := by
                          have hz := hrun
                          simp only [runningTasks] at hphr
                          rw [hphr.1] at hz
                          simpa using hz
                        have hackNil : (s.workers.set w .stopped).filterMap ackingOf = [] := by
                          have hz := hack
                          simp only [ackingTasks] at hphr
                          rw [hphr.2] at hz
                          simpa using hz
                        refine ⟨⟨by simpa using hpe, ?_, ?_, by simpa using hpa,
                          PostJoinShape_snoc hpshape _ trivial⟩, by simpa using hspn, ?_⟩
                        · rw [hqi] at hpq
                          simpa using hpq
                        · simp [heldTasks, runningTasks, ackingTasks, hrunNil, hackNil]
                        · intro j hj
                          by_cases hjw : j = w
                          · subst hjw
                            rw [List.getElem?_set_self hwlt]
                          · rw [List.getElem?_set_ne (fun hh => hjw hh.symm)]
                            exact hjlt j hj
                    | returned =>
                        rw [hm] at hstage
                        have hall := hstage.2.2
                        have hmem := hall _ (mem_of_getElem?_eq hws)
                        cases hmem
      | running t =>
          simp only [hws] at h
          cases hft : fail t <;> simp only [hft, if_true, if_false, Bool.false_eq_true] at h <;>
            injection h with h2 <;> subst h2
          -- the operation returned normally
          case false =>
            have h1 : Multiset.ofList ((s.workers.set w (.acking t)).filterMap runningOf) +
                Multiset.ofList [t] = Multiset.ofList (s.workers.filterMap runningOf) := by
              simpa using filterMap_set_msum runningOf s.workers w (.acking t) (.running t) hws
            have h2 : Multiset.ofList ((s.workers.set w (.acking t)).filterMap ackingOf) =
                Multiset.ofList (s.workers.filterMap ackingOf) + Multiset.ofList [t] := by
              simpa using filterMap_set_msum ackingOf s.workers w (.acking t) (.running t) hws
            have hl1 : ((s.workers.set w (.acking t)).filterMap runningOf).length + 1 =
                (s.workers.filterMap runningOf).length := by
              have hc := congrArg Multiset.card h1
              simpa [Multiset.coe_card] using hc
            have hl2 : ((s.workers.set w (.acking t)).filterMap ackingOf).length =
                (s.workers.filterMap ackingOf).length + 1 := by
              have hc := congrArg Multiset.card h2
              simpa [Multiset.coe_card] using hc
            refine ⟨by simpa using hlen, ?_, ?_, ?_, ?_, ?_, ?_, ?_, ?_, ?_⟩
            · simp only [runningTasks, ackingTasks] at henq ⊢
              simp only [enqueuedTasks_append, ackedTasks_append, enqueuedTasks_cons,
                ackedTasks_cons, enqueuedTasks_nil, ackedTasks_nil, List.append_nil]
              rw [henq, ← h1, h2]
              abel
            · simp only [runningTasks] at hdeq ⊢
              simp only [dequeuedTasks_append, execedTasks_append, dequeuedTasks_cons,
                execedTasks_cons, dequeuedTasks_nil, execedTasks_nil, List.append_nil]
              simp only [← Multiset.coe_add]
              rw [hdeq, ← h1]
              abel
            · simp only [ackingTasks] at hexe ⊢
              simp only [execedTasks_append, ackedTasks_append, execedTasks_cons,
                ackedTasks_cons, execedTasks_nil, ackedTasks_nil, List.append_nil]
              simp only [← Multiset.coe_add]
              rw [hexe, h2]
              abel
            · simp only [runningTasks, ackingTasks] at hunf ⊢
              simp only [consumedWorkers_append, consumedWorkers_cons,
                consumedWorkers_nil, List.append_nil]
              omega
            · simp only [loggedPairs_append, failExecPairs_append, loggedPairs_cons,
                failExecPairs_cons, loggedPairs_nil, failExecPairs_nil, List.append_nil]
              exact hlog
            · simp only [stoppedCount] at hcons ⊢
              have hc := countP_set_eq isStoppedB s.workers w (.acking t) (.running t) hws
              simp at hc
              simp only [consumedWorkers_append, consumedWorkers_cons, consumedWorkers_nil,
                List.append_nil]
              rw [hc]
              exact hcons
            · simpa using hconsNd
            · intro v hv
              simp only [consumedWorkers_append, consumedWorkers_cons,
                consumedWorkers_nil, List.append_nil] at hv
              have hv2 := hconsSt v hv
              have hne : v ≠ w := by
                intro hvw
                subst hvw
                rw [hws] at hv2
                cases hv2
              rw [List.getElem?_set_ne (fun hh => hne hh.symm)]
              exact hv2
            · simp only [StageInv] at hstage ⊢
              cases hm : s.main with
              | spawning k pending =>
                  rw [hm] at hstage
                  rw [hstage.2.2.2.2.2] at hws
                  have hmem := mem_of_getElem?_eq hws
                  simp [List.mem_append, List.mem_replicate] at hmem
              | enqueuing pending =>
                  rw [hm] at hstage
                  obtain ⟨⟨done, hsplit, hdone⟩, hshape, hns, hqs, hsp, hcw⟩ := hstage
                  refine ⟨⟨done, hsplit, by simpa using hdone⟩,
                    PreJoinShape_snoc hshape _ trivial, ?_, by simpa using hqs,
                    by simpa using hsp, by simpa using hcw⟩
                  intro x hx
                  rcases List.mem_or_eq_of_mem_set hx with hx | rfl
                  · exact hns x hx
                  · simp
              | joining =>
                  rw [hm] at hstage
                  obtain ⟨henqt, hshape, hns, hqs, hsp, hcw⟩ := hstage
                  refine ⟨by simpa using henqt,
                    PreJoinShape_snoc hshape _ trivial, ?_, by simpa using hqs,
                    by simpa using hsp, by simpa using hcw⟩
                  intro x hx
                  rcases List.mem_or_eq_of_mem_set hx with hx | rfl
                  · exact hns x hx
                  · simp
              | stopping k =>
                  rw [hm] at hstage
                  have hph := hstage.2.1.2.2.1
                  have hphr := List.append_eq_nil.mp (by simpa [heldTasks] using hph)
                  have hmem := running_mem hws
                  rw [hphr.1] at hmem
                  cases hmem
              | threadJoin i =>
                  rw [hm] at hstage
                  have hph := hstage.1.2.2.1
                  have hphr := List.append_eq_nil.mp (by simpa [heldTasks] using hph)
                  have hmem := running_mem hws
                  rw [hphr.1] at hmem
                  cases hmem
              | returned =>
                  rw [hm] at hstage
                  have hall := hstage.2.2
                  have hmem := hall _ (mem_of_getElem?_eq hws)
                  cases hmem
          -- the operation raised and the worker logged the error
          case true =>
            have h1 : Multiset.ofList ((s.workers.set w (.acking t)).filterMap runningOf) +
                Multiset.ofList [t] = Multiset.ofList (s.workers.filterMap runningOf) := by
              simpa using filterMap_set_msum runningOf s.workers w (.acking t) (.running t) hws
            have h2 : Multiset.ofList ((s.workers.set w (.acking t)).filterMap ackingOf) =
                Multiset.ofList (s.workers.filterMap ackingOf) + Multiset.ofList [t] := by
              simpa using filterMap_set_msum ackingOf s.workers w (.acking t) (.running t) hws
            have hl1 : ((s.workers.set w (.acking t)).filterMap runningOf).length + 1 =
                (s.workers.filterMap runningOf).length := by
              have hc := congrArg Multiset.card h1
              simpa [Multiset.coe_card] using hc
            have hl2 : ((s.workers.set w (.acking t)).filterMap ackingOf).length =
                (s.workers.filterMap ackingOf).length + 1 := by
              have hc := congrArg Multiset.card h2
              simpa [Multiset.coe_card] using hc
            refine ⟨by simpa using hlen, ?_, ?_, ?_, ?_, ?_, ?_, ?_, ?_, ?_⟩
            · simp only [runningTasks, ackingTasks] at henq ⊢
              simp only [enqueuedTasks_append, ackedTasks_append, enqueuedTasks_cons,
                ackedTasks_cons, enqueuedTasks_nil, ackedTasks_nil, List.append_nil]
              rw [henq, ← h1, h2]
              abel
            · simp only [runningTasks] at hdeq ⊢
              simp only [dequeuedTasks_append, execedTasks_append, dequeuedTasks_cons,
                execedTasks_cons, dequeuedTasks_nil, execedTasks_nil, List.append_nil]
              simp only [← Multiset.coe_add]
              rw [hdeq, ← h1]
              abel
            · simp only [ackingTasks] at hexe ⊢
              simp only [execedTasks_append, ackedTasks_append, execedTasks_cons,
                ackedTasks_cons, execedTasks_nil, ackedTasks_nil, List.append_nil]
              simp only [← Multiset.coe_add]
              rw [hexe, h2]
              abel
            · simp only [runningTasks, ackingTasks] at hunf ⊢
              simp only [consumedWorkers_append, consumedWorkers_cons,
                consumedWorkers_nil, List.append_nil]
              omega
            · simp only [loggedPairs_append, failExecPairs_append, loggedPairs_cons,
                failExecPairs_cons, loggedPairs_nil, failExecPairs_nil, List.append_nil,
                List.nil_append]
              rw [hlog]
            · simp only [stoppedCount] at hcons ⊢
              have hc := countP_set_eq isStoppedB s.workers w (.acking t) (.running t) hws
              simp at hc
              simp only [consumedWorkers_append, consumedWorkers_cons, consumedWorkers_nil,
                List.append_nil]
              rw [hc]
              exact hcons
            · simpa using hconsNd
            · intro v hv
              simp only [consumedWorkers_append, consumedWorkers_cons,
                consumedWorkers_nil, List.append_nil] at hv
              have hv2 := hconsSt v hv
              have hne : v ≠ w := by
                intro hvw
                subst hvw
                rw [hws] at hv2
                cases hv2
              rw [List.getElem?_set_ne (fun hh => hne hh.symm)]
              exact hv2
            · simp only [StageInv] at hstage ⊢
              cases hm : s.main with
              | spawning k pending =>
                  rw [hm] at hstage
                  rw [hstage.2.2.2.2.2] at hws
                  have hmem := mem_of_getElem?_eq hws
                  simp [List.mem_append, List.mem_replicate] at hmem
              | enqueuing pending =>
                  rw [hm] at hstage
                  obtain ⟨⟨done, hsplit, hdone⟩, hshape, hns, hqs, hsp, hcw⟩ := hstage
                  refine ⟨⟨done, hsplit, by simpa using hdone⟩, ?_, ?_, by simpa using hqs,
                    by simpa using hsp, by simpa using hcw⟩
                  · obtain ⟨mid, hmid, hwork⟩ := hshape
                    refine ⟨mid ++ [.executed w t true, .loggedError w t], by simp [hmid], ?_⟩
                    intro x hx
                    rcases List.mem_append.mp hx with hx | hx
                    · exact hwork x hx
                    · simp only [List.mem_cons, List.mem_singleton] at hx
                      rcases hx with rfl | rfl | hx
                      · trivial
                      · trivial
                      · cases hx
                  · intro x hx
                    rcases List.mem_or_eq_of_mem_set hx with hx | rfl
                    · exact hns x hx
                    · simp
              | joining =>
                  rw [hm] at hstage
                  obtain ⟨henqt, hshape, hns, hqs, hsp, hcw⟩ := hstage
                  refine ⟨by simpa using henqt, ?_, ?_, by simpa using hqs,
                    by simpa using hsp, by simpa using hcw⟩
                  · obtain ⟨mid, hmid, hwork⟩ := hshape
                    refine ⟨mid ++ [.executed w t true, .loggedError w t], by simp [hmid], ?_⟩
                    intro x hx
                    rcases List.mem_append.mp hx with hx | hx
                    · exact hwork x hx
                    · simp only [List.mem_cons, List.mem_singleton] at hx
                      rcases hx with rfl | rfl | hx
                      · trivial
                      · trivial
                      · cases hx
                  · intro x hx
                    rcases List.mem_or_eq_of_mem_set hx with hx | rfl
                    · exact hns x hx
                    · simp
              | stopping k =>
                  rw [hm] at hstage
                  have hph := hstage.2.1.2.2.1
                  have hphr := List.append_eq_nil.mp (by simpa [heldTasks] using hph)
                  have hmem := running_mem hws
                  rw [hphr.1] at hmem
                  cases hmem
              | threadJoin i =>
                  rw [hm] at hstage
                  have hph := hstage.1.2.2.1
                  have hphr := List.append_eq_nil.mp (by simpa [heldTasks] using hph)
                  have hmem := running_mem hws
                  rw [hphr.1] at hmem
                  cases hmem
              | returned =>
                  rw [hm] at hstage
                  have hall := hstage.2.2
                  have hmem := hall _ (mem_of_getElem?_eq hws)
                  cases hmem
      | acking t =>
          simp only [hws] at h
          injection h with h2
          subst h2
          have h1 : Multiset.ofList ((s.workers.set w .waiting).filterMap runningOf) =
              Multiset.ofList (s.workers.filterMap runningOf) := by
            simpa using filterMap_set_msum runningOf s.workers w .waiting (.acking t) hws
          have h2 : Multiset.ofList ((s.workers.set w .waiting).filterMap ackingOf) +
              Multiset.ofList [t] = Multiset.ofList (s.workers.filterMap ackingOf) := by
            simpa using filterMap_set_msum ackingOf s.workers w .waiting (.acking t) hws
          have hl1 : ((s.workers.set w .waiting).filterMap runningOf).length =
              (s.workers.filterMap runningOf).length := by
            have hc := congrArg Multiset.card h1
            simpa [Multiset.coe_card] using hc
          have hl2 : ((s.workers.set w .waiting).filterMap ackingOf).length + 1 =
              (s.workers.filterMap ackingOf).length := by
            have hc := congrArg Multiset.card h2
            simpa [Multiset.coe_card] using hc
          refine ⟨by simpa using hlen, ?_, ?_, ?_, ?_, ?_, ?_, ?_, ?_, ?_⟩
          · simp only [runningTasks, ackingTasks] at henq ⊢
            simp only [enqueuedTasks_append, ackedTasks_append, enqueuedTasks_cons,
              ackedTasks_cons, enqueuedTasks_nil, ackedTasks_nil, List.append_nil,
              List.nil_append]
            simp only [← Multiset.coe_add]
            rw [henq, ← h1, ← h2]
            abel
          · simp only [runningTasks] at hdeq ⊢
            simp only [dequeuedTasks_append, execedTasks_append, dequeuedTasks_cons,
              execedTasks_cons, dequeuedTasks_nil, execedTasks_nil, List.append_nil]
            rw [hdeq, h1]
          · simp only [ackingTasks] at hexe ⊢
            simp only [execedTasks_append, ackedTasks_append, execedTasks_cons,
              ackedTasks_cons, execedTasks_nil, ackedTasks_nil, List.append_nil,
              List.nil_append]
            simp only [← Multiset.coe_add]
            rw [hexe, ← h2]
            abel
          · simp only [runningTasks, ackingTasks] at hunf ⊢
            simp only [consumedWorkers_append, consumedWorkers_cons,
              consumedWorkers_nil, List.append_nil]
            omega
          · simp only [loggedPairs_append, failExecPairs_append, loggedPairs_cons,
              failExecPairs_cons, loggedPairs_nil, failExecPairs_nil, List.append_nil]
            exact hlog
          · simp only [stoppedCount] at hcons ⊢
            have hc := countP_set_eq isStoppedB s.workers w .waiting (.acking t) hws
            simp at hc
            simp only [consumedWorkers_append, consumedWorkers_cons, consumedWorkers_nil,
              List.append_nil]
            rw [hc]
            exact hcons
          · simpa using hconsNd
          · intro v hv
            simp only [consumedWorkers_append, consumedWorkers_cons,
              consumedWorkers_nil, List.append_nil] at hv
            have hv2 := hconsSt v hv
            have hne : v ≠ w := by
              intro hvw
              subst hvw
              rw [hws] at hv2
              cases hv2
            rw [List.getElem?_set_ne (fun hh => hne hh.symm)]
            exact hv2
          · simp only [StageInv] at hstage ⊢
            cases hm : s.main with
            | spawning k pending =>
                rw [hm] at hstage
                rw [hstage.2.2.2.2.2] at hws
                have hmem := mem_of_getElem?_eq hws
                simp [List.mem_append, List.mem_replicate] at hmem
            | enqueuing pending =>
                rw [hm] at hstage
                obtain ⟨⟨done, hsplit, hdone⟩, hshape, hns, hqs, hsp, hcw⟩ := hstage
                refine ⟨⟨done, hsplit, by simpa using hdone⟩,
                  PreJoinShape_snoc hshape _ trivial, ?_, by simpa using hqs,
                  by simpa using hsp, by simpa using hcw⟩
                intro x hx
                rcases List.mem_or_eq_of_mem_set hx with hx | rfl
                · exact hns x hx
                · simp
            | joining =>
                rw [hm] at hstage
                obtain ⟨henqt, hshape, hns, hqs, hsp, hcw⟩ := hstage
                refine ⟨by simpa using henqt,
                  PreJoinShape_snoc hshape _ trivial, ?_, by simpa using hqs,
                  by simpa using hsp, by simpa using hcw⟩
                intro x hx
                rcases List.mem_or_eq_of_mem_set hx with hx | rfl
                · exact hns x hx
                · simp
            | stopping k =>
                rw [hm] at hstage
                have hph := hstage.2.1.2.2.1
                have hphr := List.append_eq_nil.mp (by simpa [heldTasks] using hph)
                have hmem := acking_mem hws
                rw [hphr.2] at hmem
                cases hmem
            | threadJoin i =>
                rw [hm] at hstage
                have hph := hstage.1.2.2.1
                have hphr := List.append_eq_nil.mp (by simpa [heldTasks] using hph)
                have hmem := acking_mem hws
                rw [hphr.2] at hmem
                cases hmem
            | returned =>
                rw [hm] at hstage
                have hall := hstage.2.2
                have hmem := hall _ (mem_of_getElem?_eq hws)
                cases hmem

end ProcessTasks

namespace ProcessTasks

theorem Inv_step {tasks : List τ} {n : Nat} {s s2 : SysState τ} {fail : τ → Bool}
    (hinv : Inv tasks n s) (hstep : Step fail s s2) : Inv tasks n s2 := by
  obtain ⟨a, ha⟩ := hstep
  cases a with
  | mainAct => exact Inv_step_main hinv ha
  | workerAct w => exact Inv_step_worker hinv ha

theorem Inv_reachable {fail : τ → Bool} {tasks : List τ} {n : Nat} {s : SysState τ}
    (h : Reachable fail tasks n s) : Inv tasks n s := by
  induction h with
  | refl => exact Inv_init tasks n
  | tail _ hstep ih => exact Inv_step ih hstep

theorem runActs_reach (fail : τ → Bool) :
    ∀ (acts : List Act) (s s2 : SysState τ), runActs fail acts s = some s2 →
    Relation.ReflTransGen (Step fail) s s2 := by
  intro acts
  induction acts with
  | nil =>
      intro s s2 h
      injection h with h2
      subst h2
      exact .refl
  | cons a rest ih =>
      intro s s2 h
      simp only [runActs] at h
      cases ha : stepFn fail a s with
      | none => rw [ha] at h; cases h
      | some s3 =>
          rw [ha] at h
          exact Relation.ReflTransGen.head ⟨a, ha⟩ (ih s3 s2 h)

theorem returned_orderings {fail : τ → Bool} {tasks : List τ} {n : Nat} {s : SysState τ}
    (h : Reachable fail tasks n s) (hret : s.main = .returned) :
    spawnCompleteBeforeWork s.trace ∧ sentinelsAfterBarrier s.trace := by
  have hinv := Inv_reachable h
  have hstage := hinv.hstage
  simp only [StageInv, hret] at hstage
  obtain ⟨⟨hpe, hpq, hph, hpa, hpshape⟩, hspn, hall⟩ := hstage
  obtain ⟨mid, post, htr, hwork, hshut⟩ := hpshape
  constructor
  · intro l w2 r hsplit
    have hX : s.trace = spawnPart n ++ (mid ++ SysEvent.joinedQueue :: post) := by
      rw [htr]; simp
    have hnotin : (SysEvent.spawned w2 : SysEvent τ) ∉
        (mid ++ SysEvent.joinedQueue :: post) := by
      intro hmem
      rcases List.mem_append.mp hmem with hm2 | hm2
      · exact hwork _ hm2
      · rcases List.mem_cons.mp hm2 with heq | hm3
        · cases heq
        · exact hshut _ hm3
    have hsub := mem_left_of_split_not_right (hX.symm.trans hsplit) hnotin
    refine List.filterMap_eq_nil_iff.mpr ?_
    intro e he
    rcases List.mem_map.mp (hsub e he) with ⟨j, _, rfl⟩
    rfl
  · intro l r hsplit
    have hX : s.trace = (spawnPart n ++ mid) ++ SysEvent.joinedQueue :: post := by
      rw [htr, List.append_assoc]
    refine mem_left_of_split_after (hX.symm.trans hsplit) ?_ ?_
    · intro hmem
      rcases List.mem_append.mp hmem with hm2 | hm2
      · rcases List.mem_map.mp hm2 with ⟨j, _, hj⟩
        cases hj
      · exact hwork _ hm2
    · intro hcon
      cases hcon

end ProcessTasks

namespace ProcessTasks

theorem replicate_set_cons (a b : α) (k m : Nat) :
    (List.replicate k a ++ b :: List.replicate m b).set k a =
      List.replicate (k + 1) a ++ List.replicate m b := by
  have h1 := set_append_cons (List.replicate k a) (List.replicate m b) a b
  rw [List.length_replicate] at h1
  rw [h1, show List.replicate k a ++ a :: List.replicate m b =
      (List.replicate k a ++ [a]) ++ List.replicate m b from by simp,
    ← List.replicate_succ']

theorem live_spawn (fail : τ → Bool) (tasks : List τ) :
    ∀ (m k : Nat),
    Relation.ReflTransGen (Step fail)
      ⟨.spawning k tasks, List.replicate k .waiting ++ List.replicate m .notStarted,
        [], 0, spawnPart k⟩
      ⟨.enqueuing tasks, List.replicate (k + m) .waiting, [], 0, spawnPart (k + m)⟩ := by
  intro m
  induction m with
  | zero =>
      intro k
      refine Relation.ReflTransGen.head ⟨.mainAct, ?_⟩ .refl
      simp [stepFn]
  | succ m ih =>
      intro k
      have hstep : Step fail
          ⟨.spawning k tasks, List.replicate k .waiting ++
            List.replicate (m + 1) .notStarted, [], 0, spawnPart k⟩
          ⟨.spawning (k + 1) tasks, List.replicate (k + 1) .waiting ++
            List.replicate m .notStarted, [], 0, spawnPart (k + 1)⟩ := by
        refine ⟨.mainAct, ?_⟩
        simp only [stepFn]
        rw [if_pos (by simp only [List.length_append, List.length_replicate]; omega)]
        rw [show (List.replicate k (WStatus.waiting : WStatus τ) ++
            List.replicate (m + 1) .notStarted) =
            List.replicate k .waiting ++ .notStarted :: List.replicate m .notStarted
          from by rw [List.replicate_succ]]
        rw [replicate_set_cons, ← spawnPart_succ]
      have hrest := ih (k + 1)
      rw [show k + 1 + m = k + (m + 1) from by omega] at hrest
      exact Relation.ReflTransGen.head hstep hrest

theorem live_enqueue (fail : τ → Bool) :
    ∀ (pending : List τ) (W : List (WStatus τ)) (Q : List (QItem τ)) (u : Nat)
      (tr : List (SysEvent τ)),
    Relation.ReflTransGen (Step fail)
      ⟨.enqueuing pending, W, Q, u, tr⟩
      ⟨.joining, W, Q ++ pending.map .task, u + pending.length,
        tr ++ pending.map .enqueued⟩ := by
  intro pending
  induction pending with
  | nil =>
      intro W Q u tr
      refine Relation.ReflTransGen.head ⟨.mainAct, ?_⟩ .refl
      simp [stepFn]
  | cons t rest ih =>
      intro W Q u tr
      have hrest := ih W (Q ++ [.task t]) (u + 1) (tr ++ [.enqueued t])
      have heq : (SysState.mk (MStatus.joining) W
            ((Q ++ [QItem.task t]) ++ rest.map .task) (u + 1 + rest.length)
            ((tr ++ [SysEvent.enqueued t]) ++ rest.map .enqueued) : SysState τ) =
          ⟨.joining, W, Q ++ (t :: rest).map .task, u + (t :: rest).length,
            tr ++ (t :: rest).map .enqueued⟩ := by
        simp [List.append_assoc]
        omega
      rw [heq] at hrest
      refine Relation.ReflTransGen.head ⟨.mainAct, ?_⟩ hrest
      simp [stepFn]

theorem live_drain (fail : τ → Bool) :
    ∀ (ts : List τ) (W2 : List (WStatus τ)) (tr : List (SysEvent τ)),
    ∃ tr2, Relation.ReflTransGen (Step fail)
      ⟨.joining, .waiting :: W2, ts.map .task, ts.length, tr⟩
      ⟨.joining, .waiting :: W2, [], 0, tr2⟩ := by
  intro ts
  induction ts with
  | nil => exact fun W2 tr => ⟨tr, .refl⟩
  | cons t rest ih =>
      intro W2 tr
      obtain ⟨tr2, hrest⟩ := ih W2 (((tr ++ [.dequeued 0 t]) ++
        (.executed 0 t (fail t) :: (if fail t then [.loggedError 0 t] else []))) ++
        [.acked 0 t])
      refine ⟨tr2, ?_⟩
      have hs1 : Step fail
          ⟨.joining, .waiting :: W2, (t :: rest).map .task, (t :: rest).length, tr⟩
          ⟨.joining, .running t :: W2, rest.map .task, (t :: rest).length,
            tr ++ [.dequeued 0 t]⟩ := by
        refine ⟨.workerAct 0, ?_⟩
        simp [stepFn]
      have hs2 : Step fail
          ⟨.joining, .running t :: W2, rest.map .task, (t :: rest).length,
            tr ++ [.dequeued 0 t]⟩
          ⟨.joining, .acking t :: W2, rest.map .task, (t :: rest).length,
            (tr ++ [.dequeued 0 t]) ++
              (.executed 0 t (fail t) :: (if fail t then [.loggedError 0 t] else []))⟩ := by
        refine ⟨.workerAct 0, ?_⟩
        simp [stepFn]
      have hs3 : Step fail
          ⟨.joining, .acking t :: W2, rest.map .task, (t :: rest).length,
            (tr ++ [.dequeued 0 t]) ++
              (.executed 0 t (fail t) :: (if fail t then [.loggedError 0 t] else []))⟩
          ⟨.joining, .waiting :: W2, rest.map .task, rest.length,
            ((tr ++ [.dequeued 0 t]) ++
              (.executed 0 t (fail t) :: (if fail t then [.loggedError 0 t] else []))) ++
              [.acked 0 t]⟩ := by
        refine ⟨.workerAct 0, ?_⟩
        simp [stepFn]
      exact Relation.ReflTransGen.head hs1
        (Relation.ReflTransGen.head hs2 (Relation.ReflTransGen.head hs3 hrest))

theorem live_sentinels (fail : τ → Bool) :
    ∀ (m k : Nat) (W : List (WStatus τ)) (Q : List (QItem τ)) (u : Nat)
      (tr : List (SysEvent τ)), W.length = k + m →
    Relation.ReflTransGen (Step fail)
      ⟨.stopping k, W, Q, u, tr⟩
      ⟨.threadJoin 0, W, Q ++ List.replicate m .sentinel, u + m,
        tr ++ List.replicate m .sentinelPut⟩ := by
  intro m
  induction m with
  | zero =>
      intro k W Q u tr hlen
      refine Relation.ReflTransGen.head ⟨.mainAct, ?_⟩ .refl
      simp only [stepFn]
      rw [if_neg (by omega)]
      simp
  | succ m ih =>
      intro k W Q u tr hlen
      have hrest := ih (k + 1) W (Q ++ [.sentinel]) (u + 1) (tr ++ [.sentinelPut])
        (by omega)
      have heq : (SysState.mk (MStatus.threadJoin 0) W
            ((Q ++ [QItem.sentinel]) ++ List.replicate m .sentinel) (u + 1 + m)
            ((tr ++ [SysEvent.sentinelPut]) ++ List.replicate m .sentinelPut) :
            SysState τ) =
          ⟨.threadJoin 0, W, Q ++ List.replicate (m + 1) .sentinel, u + (m + 1),
            tr ++ List.replicate (m + 1) .sentinelPut⟩ := by
        simp [List.append_assoc, List.replicate_succ]
        omega
      rw [heq] at hrest
      refine Relation.ReflTransGen.head ⟨.mainAct, ?_⟩ hrest
      simp only [stepFn]
      rw [if_pos (by omega)]

theorem live_consume (fail : τ → Bool) :
    ∀ (m i : Nat) (u : Nat) (tr : List (SysEvent τ)),
    ∃ tr2, Relation.ReflTransGen (Step fail)
      ⟨.threadJoin 0, List.replicate i .stopped ++ List.replicate m .waiting,
        List.replicate m .sentinel, u, tr⟩
      ⟨.threadJoin 0, List.replicate (i + m) .stopped, [], u, tr2⟩ := by
  intro m
  induction m with
  | zero =>
      intro i u tr
      refine ⟨tr, ?_⟩
      simp only [List.replicate_zero, List.append_nil, Nat.add_zero]
      exact Relation.ReflTransGen.refl
  | succ m ih =>
      intro i u tr
      obtain ⟨tr2, hrest⟩ := ih (i + 1) u (tr ++ [.sentinelConsumed i])
      rw [show i + 1 + m = i + (m + 1) from by omega] at hrest
      refine ⟨tr2, ?_⟩
      refine Relation.ReflTransGen.head ⟨.workerAct i, ?_⟩ hrest
      simp only [stepFn]
      rw [show (List.replicate i (WStatus.stopped : WStatus τ) ++
          List.replicate (m + 1) .waiting) =
          List.replicate i .stopped ++ .waiting :: List.replicate m .waiting
        from by rw [List.replicate_succ]]
      rw [show (List.replicate i (WStatus.stopped : WStatus τ) ++
          WStatus.waiting :: List.replicate m .waiting)[i]? = some .waiting from by
        have := getElem?_append_cons (List.replicate i (WStatus.stopped : WStatus τ))
          (List.replicate m .waiting) .waiting
        rwa [List.length_replicate] at this]
      rw [show List.replicate (m + 1) (QItem.sentinel : QItem τ) =
        QItem.sentinel :: List.replicate m .sentinel from by rw [List.replicate_succ]]
      rw [replicate_set_cons]

theorem live_threadJoin (fail : τ → Bool) :
    ∀ (m i : Nat) (u : Nat) (tr : List (SysEvent τ)),
    ∃ tr2, Relation.ReflTransGen (Step fail)
      ⟨.threadJoin i, List.replicate (i + m) .stopped, [], u, tr⟩
      ⟨.returned, List.replicate (i + m) .stopped, [], u, tr2⟩ := by
  intro m
  induction m with
  | zero =>
      intro i u tr
      refine ⟨tr ++ [.returnedEv], Relation.ReflTransGen.head ⟨.mainAct, ?_⟩ .refl⟩
      simp only [stepFn]
      rw [if_neg (by simp only [List.length_replicate]; omega)]
  | succ m ih =>
      intro i u tr
      obtain ⟨tr2, hrest⟩ := ih (i + 1) u tr
      rw [show i + 1 + m = i + (m + 1) from by omega] at hrest
      refine ⟨tr2, ?_⟩
      refine Relation.ReflTransGen.head ⟨.mainAct, ?_⟩ hrest
      simp only [stepFn]
      rw [if_pos (by simp only [List.length_replicate]; omega)]
      rw [List.getElem?_replicate, if_pos (by omega)]

end ProcessTasks

namespace ProcessTasks

theorem processTasks_terminates (fail : τ → Bool) (tasks : List τ) {n : Nat}
    (hn : 1 ≤ n) :
    ∃ s, Reachable fail tasks n s ∧ s.main = .returned := by
  have h1 := live_spawn fail tasks n 0
  rw [Nat.zero_add] at h1
  have hinit : (initState n tasks : SysState τ) =
      ⟨.spawning 0 tasks, List.replicate 0 .waiting ++ List.replicate n .notStarted,
        [], 0, spawnPart 0⟩ := by
    simp [initState, spawnPart]
  have h2 := live_enqueue fail tasks (List.replicate n .waiting) [] 0 (spawnPart n)
  rw [List.nil_append, Nat.zero_add] at h2
  have hrepn : List.replicate n (WStatus.waiting : WStatus τ) =
      .waiting :: List.replicate (n - 1) .waiting := by
    rw [← List.replicate_succ]
    congr 1
    omega
  obtain ⟨tr3, h3⟩ := live_drain fail tasks (List.replicate (n - 1) .waiting)
    (spawnPart n ++ tasks.map .enqueued)
  rw [← hrepn] at h3
  have h4 : Step fail ⟨.joining, List.replicate n .waiting, [], 0, tr3⟩
      ⟨.stopping 0, List.replicate n .waiting, [], 0, tr3 ++ [.joinedQueue]⟩ :=
    ⟨.mainAct, by simp [stepFn]⟩
  have h5 := live_sentinels fail n 0 (List.replicate n .waiting) [] 0
    (tr3 ++ [.joinedQueue]) (by simp)
  rw [List.nil_append, Nat.zero_add] at h5
  obtain ⟨tr6, h6⟩ := live_consume fail n 0 n
    ((tr3 ++ [.joinedQueue]) ++ List.replicate n .sentinelPut)
  rw [List.replicate_zero, List.nil_append, Nat.zero_add] at h6
  obtain ⟨tr7, h7⟩ := live_threadJoin fail n 0 n tr6
  rw [Nat.zero_add] at h7
  refine ⟨⟨.returned, List.replicate n .stopped, [], n, tr7⟩, ?_, rfl⟩
  rw [Reachable, hinit]
  exact h1.trans (h2.trans (h3.trans (Relation.ReflTransGen.head h4
    (h5.trans (h6.trans h7)))))

end ProcessTasks

theorem lookup_none_not_mem {l : List (String × PyVal)} {k : String} {v : PyVal}
    (h : l.lookup k = Option.none) : (k, v) ∉ l := by
  induction l with
  | nil => simp
  | cons x xs ih =>
      simp only [List.lookup] at h
      cases hkx : (k == x.1) with
      | true => rw [hkx] at h; cases h
      | false =>
          rw [hkx] at h
          intro hm
          rcases List.mem_cons.mp hm with heq | hm2
          · rw [← heq] at hkx
            simp at hkx
          · exact ih h hm2

theorem dictPop_mem (d : List (String × PyVal)) (key : String) (dflt : PyVal)
    (k : String) (v : PyVal) :
    (k, v) ∈ (dictPop d key dflt).2 ↔ ((k, v) ∈ d ∧ k ≠ key) := by
  rw [dictPop]
  cases hl : d.lookup key with
  | none =>
      constructor
      · intro hm
        refine ⟨hm, ?_⟩
        intro hk
        subst hk
        exact lookup_none_not_mem hl hm
      · exact fun hm => hm.1
  | some x =>
      simp [List.mem_filter, bne_iff_ne]

theorem claimAtts_parent {atts : List PyVal} {cid : PyVal} {ts : List QTask} :
    _process_claim_attachments atts cid = .ok ts →
    ∀ t ∈ ts, t.args.head? = some cid := by
  induction atts generalizing ts with
  | nil =>
      intro h t ht
      simp only [_process_claim_attachments] at h
      injection h with h2
      subst h2
      cases ht
  | cons att rest ih =>
      intro h t ht
      simp only [_process_claim_attachments] at h
      cases hpath : getItem att "path_to_attachment" with
      | error e => rw [hpath] at h; cases h
      | ok path =>
          rw [hpath] at h
          cases htype : getItem att "attachment_type" with
          | error e => rw [htype] at h; cases h
          | ok atype =>
              rw [htype] at h
              cases hdesc : dictGetD att "description" PyVal.none with
              | error e => rw [hdesc] at h; cases h
              | ok desc =>
                  rw [hdesc] at h
                  cases hrest : _process_claim_attachments rest cid with
                  | error e => rw [hrest] at h; cases h
                  | ok ts2 =>
                      rw [hrest] at h
                      injection h with h2
                      subst h2
                      rcases List.mem_cons.mp ht with rfl | ht2
                      · rfl
                      · exact ih hrest t ht2

theorem buildAttList_parent {pid : PyVal} {atts : List PyVal} {ts : List QTask} :
    buildAttachmentTasks.buildAttachmentTasksList pid atts = .ok ts →
    ∀ t ∈ ts, t.args.head? = some pid := by
  induction atts generalizing ts with
  | nil =>
      intro h t ht
      simp only [buildAttachmentTasks.buildAttachmentTasksList] at h
      injection h with h2
      subst h2
      cases ht
  | cons att rest ih =>
      intro h t ht
      simp only [buildAttachmentTasks.buildAttachmentTasksList] at h
      cases hpath : getItem att "path_to_attachment" with
      | error e => rw [hpath] at h; cases h
      | ok path =>
          rw [hpath] at h
          cases hdesc : dictGetD att "description" (PyVal.str "") with
          | error e => rw [hdesc] at h; cases h
          | ok desc =>
              rw [hdesc] at h
              cases hrest : buildAttachmentTasks.buildAttachmentTasksList pid rest with
              | error e => rw [hrest] at h; cases h
              | ok ts2 =>
                  rw [hrest] at h
                  injection h with h2
                  subst h2
                  rcases List.mem_cons.mp ht with rfl | ht2
                  · rfl
                  · exact ih hrest t ht2

theorem buildAtt_parent {pid : PyVal} {atts : PyVal} {ts : List QTask} :
    buildAttachmentTasks pid atts = .ok ts → ∀ t ∈ ts, t.args.head? = some pid := by
  intro h
  cases atts <;> simp only [buildAttachmentTasks] at h
  case list l => exact buildAttList_parent h
  all_goals cases h

@[simp] theorem createdIds_append (a b : List CallEvent) :
    createdIds (a ++ b) = createdIds a ++ createdIds b :=
  List.filterMap_append a b _

theorem mem_createdIds_head {e : CallEvent} {v pid : PyVal}
    {entries : List (String × PyVal)} (evs : List CallEvent)
    (hresp : e.resp = .ok v) (hdict : v = .dict entries)
    (hpid : entries.lookup "id" = some pid) :
    pid ∈ createdIds (e :: evs) := by
  subst hdict
  simp only [createdIds, List.filterMap_cons, hresp, hpid]
  exact List.mem_cons_self _ _

theorem mem_createdIds_cons (e : CallEvent) {evs : List CallEvent} {pid : PyVal}
    (h : pid ∈ createdIds evs) : pid ∈ createdIds (e :: evs) := by
  simp only [createdIds, List.filterMap_cons]
  cases hm : (match e.resp with
    | .ok (.dict entries) => entries.lookup "id"
    | _ => Option.none) with
  | none => exact h
  | some x => exact List.mem_cons_of_mem _ h

theorem getItem_ok_dict {v pid : PyVal} (h : getItem v "id" = .ok pid) :
    ∃ entries, v = .dict entries ∧ entries.lookup "id" = some pid := by
  cases v <;> simp only [getItem] at h
  case dict entries =>
      cases hl : entries.lookup "id" with
      | none => rw [hl] at h; cases h
      | some x =>
          rw [hl] at h
          injection h with h2
          subst h2
          exact ⟨entries, rfl, hl⟩
  all_goals cases h

theorem processInvoices_props (remote : Remote) (cid : PyVal) :
    ∀ (invL : List PyVal) (evs : List CallEvent) (res : Except PyErr (List QTask)),
    _process_invoices remote invL cid = (evs, res) →
    (∀ e ∈ evs, isClaimCreateB e = false) ∧
    (∀ ts, res = .ok ts → ∀ t ∈ ts, ∃ pid, t.args.head? = some pid ∧
      pid ∈ createdIds evs) ∧
    (∀ e ∈ evs, ∀ v entries, e.resp = .ok v → v = .dict entries →
      entries.lookup "id" = Option.none → res = .error (.keyError "id")) := by
  intro invL
  induction invL with
  | nil =>
      intro evs res h
      simp only [_process_invoices] at h
      cases h
      refine ⟨by simp, ?_, by simp⟩
      intro ts hts t ht
      injection hts with h2
      subst h2
      cases ht
  | cons inv rest ih =>
      intro evs res h
      cases inv with
      | dict entries =>
          simp only [_process_invoices] at h
          cases hsub : submit_invoices remote (("claim", cid) :: entries) with
          | error e =>
              simp only [hsub] at h
              cases h
              refine ⟨by simp, by simp, ?_⟩
              intro e2 he2 v entries2 hresp hd hl
              rcases List.mem_singleton.mp he2 with rfl
              simp only [CallEvent.resp] at hresp
              cases hresp
          | ok resp =>
              simp only [hsub] at h
              cases hid : getItem resp "id" with
              | error e =>
                  simp only [hid] at h
                  cases h
                  refine ⟨by simp, by simp, ?_⟩
                  intro e2 he2 v entries2 hresp hd hl
                  rcases List.mem_singleton.mp he2 with rfl
                  simp only [CallEvent.resp] at hresp
                  injection hresp with h3
                  subst h3
                  subst hd
                  simp only [getItem, hl] at hid
                  injection hid with h4
                  subst h4
                  rfl
              | ok inv_id =>
                  simp only [hid] at h
                  cases hbuild : buildAttachmentTasks inv_id
                      ((entries.lookup "invoice_attachments").getD (.list [])) with
                  | error e =>
                      simp only [hbuild] at h
                      cases h
                      refine ⟨by simp, by simp, ?_⟩
                      intro e2 he2 v entries2 hresp hd hl
                      rcases List.mem_singleton.mp he2 with rfl
                      simp only [CallEvent.resp] at hresp
                      injection hresp with h3
                      subst h3
                      subst hd
                      simp only [getItem, hl] at hid
                      cases hid
                  | ok ts1 =>
                      simp only [hbuild] at h
                      rcases hrec : _process_invoices remote rest cid with ⟨evs2, res2⟩
                      simp only [hrec] at h
                      cases h
                      obtain ⟨ih1, ih2, ih3⟩ := ih evs2 res2 hrec
                      refine ⟨?_, ?_, ?_⟩
                      · intro e2 he2
                        rcases List.mem_cons.mp he2 with rfl | he3
                        · rfl
                        · exact ih1 e2 he3
                      · intro ts hts t ht
                        cases res2 with
                        | error e => cases hts
                        | ok ts2 =>
                            injection hts with h2
                            subst h2
                            rcases List.mem_append.mp ht with ht1 | ht2
                            · obtain ⟨entries2, hde, hle⟩ := getItem_ok_dict hid
                              exact ⟨inv_id, buildAtt_parent hbuild t ht1,
                                mem_createdIds_head evs2 rfl hde hle⟩
                            · obtain ⟨pid, hh, hm⟩ := ih2 ts2 rfl t ht2
                              exact ⟨pid, hh, mem_createdIds_cons _ hm⟩
                      · intro e2 he2 v entries2 hresp hd hl
                        rcases List.mem_cons.mp he2 with rfl | he3
                        · simp only [CallEvent.resp] at hresp
                          injection hresp with h3
                          subst h3
                          subst hd
                          simp only [getItem, hl] at hid
                          cases hid
                        · have hres2 := ih3 e2 he3 v entries2 hresp hd hl
                          rw [hres2]
              -- end ok resp
      | none =>
          simp only [_process_invoices] at h
          cases h
          exact ⟨by simp, by simp, by simp⟩
      | str sv =>
          simp only [_process_invoices] at h
          cases h
          exact ⟨by simp, by simp, by simp⟩
      | int iv =>
          simp only [_process_invoices] at h
          cases h
          exact ⟨by simp, by simp, by simp⟩
      | list lv =>
          simp only [_process_invoices] at h
          cases h
          exact ⟨by simp, by simp, by simp⟩

theorem processCreditNotes_props (remote : Remote) (cid : PyVal) :
    ∀ (crnL : List PyVal) (evs : List CallEvent) (res : Except PyErr (List QTask)),
    _process_credit_notes remote crnL cid = (evs, res) →
    (∀ e ∈ evs, isClaimCreateB e = false) ∧
    (∀ ts, res = .ok ts → ∀ t ∈ ts, ∃ pid, t.args.head? = some pid ∧
      pid ∈ createdIds evs) ∧
    (∀ e ∈ evs, ∀ v entries, e.resp = .ok v → v = .dict entries →
      entries.lookup "id" = Option.none → res = .error (.keyError "id")) := by
  intro crnL
  induction crnL with
  | nil =>
      intro evs res h
      simp only [_process_credit_notes] at h
      cases h
      refine ⟨by simp, ?_, by simp⟩
      intro ts hts t ht
      injection hts with h2
      subst h2
      cases ht
  | cons inv rest ih =>
      intro evs res h
      cases inv with
      | dict entries =>
          simp only [_process_credit_notes] at h
          cases hsub : submit_credit_note remote (("claim", cid) :: entries) with
          | error e =>
              simp only [hsub] at h
              cases h
              refine ⟨by simp, by simp, ?_⟩
              intro e2 he2 v entries2 hresp hd hl
              rcases List.mem_singleton.mp he2 with rfl
              simp only [CallEvent.resp] at hresp
              cases hresp
          | ok resp =>
              simp only [hsub] at h
              cases hid : getItem resp "id" with
              | error e =>
                  simp only [hid] at h
                  cases h
                  refine ⟨by simp, by simp, ?_⟩
                  intro e2 he2 v entries2 hresp hd hl
                  rcases List.mem_singleton.mp he2 with rfl
                  simp only [CallEvent.resp] at hresp
                  injection hresp with h3
                  subst h3
                  subst hd
                  simp only [getItem, hl] at hid
                  injection hid with h4
                  subst h4
                  rfl
              | ok crn_id =>
                  simp only [hid] at h
                  cases hbuild : buildAttachmentTasks crn_id
                      ((entries.lookup "crn_attachments").getD (.list [])) with
                  | error e =>
                      simp only [hbuild] at h
                      cases h
                      refine ⟨by simp, by simp, ?_⟩
                      intro e2 he2 v entries2 hresp hd hl
                      rcases List.mem_singleton.mp he2 with rfl
                      simp only [CallEvent.resp] at hresp
                      injection hresp with h3
                      subst h3
                      subst hd
                      simp only [getItem, hl] at hid
                      cases hid
                  | ok ts1 =>
                      simp only [hbuild] at h
                      rcases hrec : _process_credit_notes remote rest cid with ⟨evs2, res2⟩
                      simp only [hrec] at h
                      cases h
                      obtain ⟨ih1, ih2, ih3⟩ := ih evs2 res2 hrec
                      refine ⟨?_, ?_, ?_⟩
                      · intro e2 he2
                        rcases List.mem_cons.mp he2 with rfl | he3
                        · rfl
                        · exact ih1 e2 he3
                      · intro ts hts t ht
                        cases res2 with
                        | error e => cases hts
                        | ok ts2 =>
                            injection hts with h2
                            subst h2
                            rcases List.mem_append.mp ht with ht1 | ht2
                            · obtain ⟨entries2, hde, hle⟩ := getItem_ok_dict hid
                              exact ⟨crn_id, buildAtt_parent hbuild t ht1,
                                mem_createdIds_head evs2 rfl hde hle⟩
                            · obtain ⟨pid, hh, hm⟩ := ih2 ts2 rfl t ht2
                              exact ⟨pid, hh, mem_createdIds_cons _ hm⟩
                      · intro e2 he2 v entries2 hresp hd hl
                        rcases List.mem_cons.mp he2 with rfl | he3
                        · simp only [CallEvent.resp] at hresp
                          injection hresp with h3
                          subst h3
                          subst hd
                          simp only [getItem, hl] at hid
                          cases hid
                        · have hres2 := ih3 e2 he3 v entries2 hresp hd hl
                          rw [hres2]
              -- end ok resp
      | none =>
          simp only [_process_credit_notes] at h
          cases h
          exact ⟨by simp, by simp, by simp⟩
      | str sv =>
          simp only [_process_credit_notes] at h
          cases h
          exact ⟨by simp, by simp, by simp⟩
      | int iv =>
          simp only [_process_credit_notes] at h
          cases h
          exact ⟨by simp, by simp, by simp⟩
      | list lv =>
          simp only [_process_credit_notes] at h
          cases h
          exact ⟨by simp, by simp, by simp⟩

set_option maxHeartbeats 2000000 in
theorem sync_analysis (remote : Remote) (bundled : List (String × PyVal)) :
    ∃ kw r rest,
      (send_a_claim_and_its_children remote bundled).events =
        .claimCreate kw r :: rest ∧
      r = create_claim remote kw ∧
      (∀ k v, (k, v) ∈ kw ↔ ((k, v) ∈ bundled ∧ k ≠ "invoices" ∧
        k ≠ "claim_attachments" ∧ k ≠ "credit_notes")) ∧
      (∀ e ∈ rest, isClaimCreateB e = false) ∧
      (∀ e2, r = .error e2 → rest = [] ∧
        (send_a_claim_and_its_children remote bundled).result = .error e2) ∧
      (∀ v entries, r = .ok v → v = .dict entries →
        entries.lookup "id" = Option.none →
        (send_a_claim_and_its_children remote bundled).result =
          .error (.keyError "id")) ∧
      (∀ e ∈ rest, ∀ v entries, e.resp = .ok v → v = .dict entries →
        entries.lookup "id" = Option.none →
        (send_a_claim_and_its_children remote bundled).result =
          .error (.keyError "id")) ∧
      (∀ tasks, (send_a_claim_and_its_children remote bundled).result = .ok tasks →
        ∀ t ∈ tasks, ∃ pid, t.args.head? = some pid ∧
          pid ∈ createdIds (send_a_claim_and_its_children remote bundled).events) := by
  rcases hp1 : dictPop bundled "invoices" (.list []) with ⟨invoicesV, b1⟩
  rcases hp2 : dictPop b1 "claim_attachments" (.list []) with ⟨claimAttsV, b2⟩
  rcases hp3 : dictPop b2 "credit_notes" (.list []) with ⟨creditNotesV, b3⟩
  have hkw : ∀ k v, (k, v) ∈ b3 ↔ ((k, v) ∈ bundled ∧ k ≠ "invoices" ∧
      k ≠ "claim_attachments" ∧ k ≠ "credit_notes") := by
    intro k v
    have m1 := dictPop_mem bundled "invoices" (.list []) k v
    have m2 := dictPop_mem b1 "claim_attachments" (.list []) k v
    have m3 := dictPop_mem b2 "credit_notes" (.list []) k v
    rw [hp1] at m1
    rw [hp2] at m2
    rw [hp3] at m3
    rw [m3, m2, m1]
    tauto
  cases hc : create_claim remote b3 with
  | error e =>
      have hev : (send_a_claim_and_its_children remote bundled).events =
          [.claimCreate b3 (.error e)] := by
        simp only [send_a_claim_and_its_children, hp1, hp2, hp3, hc]
      have hres : (send_a_claim_and_its_children remote bundled).result = .error e := by
        simp only [send_a_claim_and_its_children, hp1, hp2, hp3, hc]
      refine ⟨b3, .error e, [], hev, hc.symm, hkw, by simp, ?_, by simp, by simp, ?_⟩
      · intro e2 he2
        injection he2 with h3
        subst h3
        exact ⟨rfl, hres⟩
      · intro tasks htasks
        rw [hres] at htasks
        cases htasks
  | ok resp =>
      cases hid : getItem resp "id" with
      | error e =>
          have hev : (send_a_claim_and_its_children remote bundled).events =
              [.claimCreate b3 (.ok resp)] := by
            simp only [send_a_claim_and_its_children, hp1, hp2, hp3, hc, hid]
          have hres : (send_a_claim_and_its_children remote bundled).result =
              .error e := by
            simp only [send_a_claim_and_its_children, hp1, hp2, hp3, hc, hid]
          refine ⟨b3, .ok resp, [], hev, hc.symm, hkw, by simp, by simp, ?_,
            by simp, ?_⟩
          · intro v entries hv hd hl
            injection hv with h3
            subst h3
            subst hd
            simp only [getItem, hl] at hid
            injection hid with h4
            subst h4
            exact hres
          · intro tasks htasks
            rw [hres] at htasks
            cases htasks
      | ok claimId =>
          obtain ⟨entriesR, hdR, hlR⟩ := getItem_ok_dict hid
          have hnoid : ∀ (v : PyVal) (entries : List (String × PyVal)),
              (Except.ok resp : Except PyErr PyVal) = Except.ok v →
              v = .dict entries → entries.lookup "id" = Option.none → False := by
            intro v entries hv hd hl
            injection hv with h3
            subst h3
            rw [hd] at hdR
            injection hdR with h4
            subst h4
            rw [hlR] at hl
            cases hl
          cases ha1 : asList claimAttsV with
          | error e =>
              have hev : (send_a_claim_and_its_children remote bundled).events =
                  [.claimCreate b3 (.ok resp)] := by
                simp only [send_a_claim_and_its_children, hp1, hp2, hp3, hc, hid, ha1]
              have hres : (send_a_claim_and_its_children remote bundled).result =
                  .error e := by
                simp only [send_a_claim_and_its_children, hp1, hp2, hp3, hc, hid, ha1]
              refine ⟨b3, .ok resp, [], hev, hc.symm, hkw, by simp, by simp, ?_,
                by simp, ?_⟩
              · intro v entries hv hd hl
                exact (hnoid v entries hv hd hl).elim
              · intro tasks htasks
                rw [hres] at htasks
                cases htasks
          | ok attsL =>
              cases hca : _process_claim_attachments attsL claimId with
              | error e =>
                  have hev : (send_a_claim_and_its_children remote bundled).events =
                      [.claimCreate b3 (.ok resp)] := by
                    simp only [send_a_claim_and_its_children, hp1, hp2, hp3, hc, hid,
                      ha1, hca]
                  have hres : (send_a_claim_and_its_children remote bundled).result =
                      .error e := by
                    simp only [send_a_claim_and_its_children, hp1, hp2, hp3, hc, hid,
                      ha1, hca]
                  refine ⟨b3, .ok resp, [], hev, hc.symm, hkw, by simp, by simp, ?_,
                    by simp, ?_⟩
                  · intro v entries hv hd hl
                    exact (hnoid v entries hv hd hl).elim
                  · intro tasks htasks
                    rw [hres] at htasks
                    cases htasks
              | ok ts1 =>
                  cases ha2 : asList invoicesV with
                  | error e =>
                      have hev : (send_a_claim_and_its_children remote bundled).events =
                          [.claimCreate b3 (.ok resp)] := by
                        simp only [send_a_claim_and_its_children, hp1, hp2, hp3, hc,
                          hid, ha1, hca, ha2]
                      have hres : (send_a_claim_and_its_children remote bundled).result =
                          .error e := by
                        simp only [send_a_claim_and_its_children, hp1, hp2, hp3, hc,
                          hid, ha1, hca, ha2]
                      refine ⟨b3, .ok resp, [], hev, hc.symm, hkw, by simp, by simp, ?_,
                        by simp, ?_⟩
                      · intro v entries hv hd hl
                        exact (hnoid v entries hv hd hl).elim
                      · intro tasks htasks
                        rw [hres] at htasks
                        cases htasks
                  | ok invL =>
                      rcases hpi : _process_invoices remote invL claimId with ⟨evI, resI⟩
                      obtain ⟨pi1, pi2, pi3⟩ :=
                        processInvoices_props remote claimId invL evI resI hpi
                      cases resI with
                      | error e =>
                          have hev : (send_a_claim_and_its_children remote
                              bundled).events =
                              .claimCreate b3 (.ok resp) :: evI := by
                            simp only [send_a_claim_and_its_children, hp1, hp2, hp3,
                              hc, hid, ha1, hca, ha2, hpi]
                          have hres : (send_a_claim_and_its_children remote
                              bundled).result = .error e := by
                            simp only [send_a_claim_and_its_children, hp1, hp2, hp3,
                              hc, hid, ha1, hca, ha2, hpi]
                          refine ⟨b3, .ok resp, evI, hev, hc.symm, hkw, pi1, by simp,
                            ?_, ?_, ?_⟩
                          · intro v entries hv hd hl
                            exact (hnoid v entries hv hd hl).elim
                          · intro e2 he2 v entries hresp hd hl
                            have hq := pi3 e2 he2 v entries hresp hd hl
                            injection hq with h5
                            subst h5
                            exact hres
                          · intro tasks htasks
                            rw [hres] at htasks
                            cases htasks
                      | ok ts2 =>
                          cases ha3 : asList creditNotesV with
                          | error e =>
                              have hev : (send_a_claim_and_its_children remote
                                  bundled).events =
                                  .claimCreate b3 (.ok resp) :: evI := by
                                simp only [send_a_claim_and_its_children, hp1, hp2,
                                  hp3, hc, hid, ha1, hca, ha2, hpi, ha3]
                              have hres : (send_a_claim_and_its_children remote
                                  bundled).result = .error e := by
                                simp only [send_a_claim_and_its_children, hp1, hp2,
                                  hp3, hc, hid, ha1, hca, ha2, hpi, ha3]
                              refine ⟨b3, .ok resp, evI, hev, hc.symm, hkw, pi1,
                                by simp, ?_, ?_, ?_⟩
                              · intro v entries hv hd hl
                                exact (hnoid v entries hv hd hl).elim
                              · intro e2 he2 v entries hresp hd hl
                                have hq := pi3 e2 he2 v entries hresp hd hl
                                cases hq
                              · intro tasks htasks
                                rw [hres] at htasks
                                cases htasks
                          | ok crnL =>
                              rcases hpc : _process_credit_notes remote crnL claimId
                                with ⟨evC, resC⟩
                              obtain ⟨pc1, pc2, pc3⟩ :=
                                processCreditNotes_props remote claimId crnL evC resC hpc
                              cases resC with
                              | error e =>
                                  have hev : (send_a_claim_and_its_children remote
                                      bundled).events =
                                      .claimCreate b3 (.ok resp) :: (evI ++ evC) := by
                                    simp only [send_a_claim_and_its_children, hp1, hp2,
                                      hp3, hc, hid, ha1, hca, ha2, hpi, ha3, hpc,
                                      List.cons_append]
                                  have hres : (send_a_claim_and_its_children remote
                                      bundled).result = .error e := by
                                    simp only [send_a_claim_and_its_children, hp1, hp2,
                                      hp3, hc, hid, ha1, hca, ha2, hpi, ha3, hpc]
                                  refine ⟨b3, .ok resp, evI ++ evC, hev, hc.symm, hkw,
                                    ?_, by simp, ?_, ?_, ?_⟩
                                  · intro e2 he2
                                    rcases List.mem_append.mp he2 with h6 | h6
                                    · exact pi1 e2 h6
                                    · exact pc1 e2 h6
                                  · intro v entries hv hd hl
                                    exact (hnoid v entries hv hd hl).elim
                                  · intro e2 he2 v entries hresp hd hl
                                    rcases List.mem_append.mp he2 with h6 | h6
                                    · have hq := pi3 e2 h6 v entries hresp hd hl
                                      cases hq
                                    · have hq := pc3 e2 h6 v entries hresp hd hl
                                      injection hq with h5
                                      subst h5
                                      exact hres
                                  · intro tasks htasks
                                    rw [hres] at htasks
                                    cases htasks
                              | ok ts3 =>
                                  have hev : (send_a_claim_and_its_children remote
                                      bundled).events =
                                      .claimCreate b3 (.ok resp) :: (evI ++ evC) := by
                                    simp only [send_a_claim_and_its_children, hp1, hp2,
                                      hp3, hc, hid, ha1, hca, ha2, hpi, ha3, hpc,
                                      List.cons_append]
                                  have hres : (send_a_claim_and_its_children remote
                                      bundled).result = .ok (ts1 ++ ts2 ++ ts3) := by
                                    simp only [send_a_claim_and_its_children, hp1, hp2,
                                      hp3, hc, hid, ha1, hca, ha2, hpi, ha3, hpc]
                                  refine ⟨b3, .ok resp, evI ++ evC, hev, hc.symm, hkw,
                                    ?_, by simp, ?_, ?_, ?_⟩
                                  · intro e2 he2
                                    rcases List.mem_append.mp he2 with h6 | h6
                                    · exact pi1 e2 h6
                                    · exact pc1 e2 h6
                                  · intro v entries hv hd hl
                                    exact (hnoid v entries hv hd hl).elim
                                  · intro e2 he2 v entries hresp hd hl
                                    rcases List.mem_append.mp he2 with h6 | h6
                                    · have hq := pi3 e2 h6 v entries hresp hd hl
                                      cases hq
                                    · have hq := pc3 e2 h6 v entries hresp hd hl
                                      cases hq
                                  · intro tasks htasks
                                    rw [hres] at htasks
                                    injection htasks with h9
                                    subst h9
                                    intro t ht
                                    rw [hev]
                                    rcases List.mem_append.mp ht with ht1 | ht2
                                    · rcases List.mem_append.mp ht1 with ht3 | ht4
                                      · refine ⟨claimId, claimAtts_parent hca t ht3, ?_⟩
                                        exact mem_createdIds_head _ rfl hdR hlR
                                      · obtain ⟨pid, hh, hm⟩ := pi2 ts2 rfl t ht4
                                        refine ⟨pid, hh, mem_createdIds_cons _ ?_⟩
                                        rw [createdIds_append]
                                        exact List.mem_append_left _ hm
                                    · obtain ⟨pid, hh, hm⟩ := pc2 ts3 rfl t ht2
                                      refine ⟨pid, hh, mem_createdIds_cons _ ?_⟩
                                      rw [createdIds_append]
                                      exact List.mem_append_right _ hm

namespace ProcessTasks

theorem spawnedCount_postJoin {n : Nat} {tr : List (SysEvent τ)}
    (h : PostJoinShape n tr) : spawnedCount tr = n := by
  obtain ⟨mid, post, htr, hwork, hshut⟩ := h
  simp only [spawnedCount]
  rw [htr, List.countP_append, List.countP_append, List.countP_cons]
  have hmid : (mid.countP fun e =>
      match e with | .spawned _ => true | _ => false) = 0 := by
    rw [List.countP_eq_zero]
    intro e he
    have hw := hwork e he
    cases e <;> simp_all [isWorkEvent]
  have hpost : (post.countP fun e =>
      match e with | .spawned _ => true | _ => false) = 0 := by
    rw [List.countP_eq_zero]
    intro e he
    have hs := hshut e he
    cases e <;> simp_all [isShutdownEvent]
  have hsp := spawnedCount_spawnPart (τ := τ) n
  simp only [spawnedCount] at hsp
  rw [hsp, hmid, hpost]
  simp

theorem returned_facts {fail : τ → Bool} {tasks : List τ} {n : Nat} {s : SysState τ}
    (h : Reachable fail tasks n s) (hret : s.main = .returned) :
    enqueuedTasks s.trace = tasks ∧
    (dequeuedTasks s.trace).Perm tasks ∧
    (execedTasks s.trace).Perm tasks ∧
    (ackedTasks s.trace).Perm tasks ∧
    (∀ st ∈ s.workers, st = .stopped) ∧
    spawnedCount s.trace = n ∧
    sentinelPutCount s.trace = n ∧
    (consumedWorkers s.trace).length = n ∧
    (consumedWorkers s.trace).Nodup := by
  have hinv := Inv_reachable h
  have hstage := hinv.hstage
  simp only [StageInv, hret] at hstage
  obtain ⟨⟨hpe, hpq, hph, hpa, hpshape⟩, hspn, hall⟩ := hstage
  simp only [heldTasks] at hph
  obtain ⟨hrun, hack⟩ := List.append_eq_nil.mp hph
  have hexeP : (execedTasks s.trace).Perm (ackedTasks s.trace) := by
    have hx := hinv.hexe
    rw [hack] at hx
    simp only [Multiset.coe_nil, zero_add] at hx
    exact Multiset.coe_eq_coe.mp hx
  have hdeqP : (dequeuedTasks s.trace).Perm (execedTasks s.trace) := by
    have hx := hinv.hdeq
    rw [hrun] at hx
    simp only [Multiset.coe_nil, zero_add] at hx
    exact Multiset.coe_eq_coe.mp hx
  have hstopn : stoppedCount s.workers = n := by
    have hx : stoppedCount s.workers = s.workers.length := by
      rw [stoppedCount, List.countP_eq_length]
      intro st hst
      rw [hall st hst]
      rfl
    rw [hx, hinv.hlen]
  refine ⟨hpe, hdeqP.trans (hexeP.trans hpa), hexeP.trans hpa, hpa, hall,
    spawnedCount_postJoin hpshape, hspn, ?_, hinv.hconsNd⟩
  rw [hinv.hcons, hstopn]

theorem executed_mem_tasks {fail : τ → Bool} {tasks : List τ} {n : Nat}
    {s : SysState τ} (h : Reachable fail tasks n s) :
    ∀ t ∈ execedTasks s.trace, t ∈ tasks := by
  intro t ht
  have hinv := Inv_reachable h
  have hlist : t ∈ enqueuedTasks s.trace := by
    have h1 : t ∈ Multiset.ofList (execedTasks s.trace) := Multiset.mem_coe.mpr ht
    rw [hinv.hexe] at h1
    have h2 : t ∈ Multiset.ofList (enqueuedTasks s.trace) := by
      rw [hinv.henq]
      rcases Multiset.mem_add.mp h1 with h3 | h3
      · exact Multiset.mem_add.mpr (.inl (Multiset.mem_add.mpr (.inr h3)))
      · exact Multiset.mem_add.mpr (.inr h3)
    exact Multiset.mem_coe.mp h2
  have hstage := hinv.hstage
  cases hm : s.main with
  | spawning k pending =>
      simp only [StageInv, hm] at hstage
      obtain ⟨-, -, htr, -⟩ := hstage
      rw [htr, enqueuedTasks_spawnPart] at hlist
      cases hlist
  | enqueuing pending =>
      simp only [StageInv, hm] at hstage
      obtain ⟨⟨done, hsplit, hdone⟩, -⟩ := hstage
      rw [hdone] at hlist
      rw [hsplit]
      exact List.mem_append_left _ hlist
  | joining =>
      simp only [StageInv, hm] at hstage
      rw [hstage.1] at hlist
      exact hlist
  | stopping k =>
      simp only [StageInv, hm] at hstage
      rw [hstage.2.1.1] at hlist
      exact hlist
  | threadJoin i =>
      simp only [StageInv, hm] at hstage
      rw [hstage.1.1] at hlist
      exact hlist
  | returned =>
      simp only [StageInv, hm] at hstage
      rw [hstage.1.1] at hlist
      exact hlist

end ProcessTasks

/-- C1: the specification says each invoice's nested invoice_attachments
(and each credit note's crn_attachments) yield attachment tasks after the
synchronous creation call succeeds.  The code instead forwards the whole
record with submit_invoices(claim=claim_id, **invoice) and
submit_credit_note(claim_id, **crn); when the record carries a nonempty
nested attachment list, the extra key matches no parameter of the wrapper
signature, so the call raises TypeError before anything is submitted and
the per claim orchestration aborts: no attachment task can ever be built
from a nested attachment list. -/
theorem C1_nested_attachment_key_raises_type_error :
    (send_a_claim_and_its_children okRemote invoiceAttBundle).result =
      .error (.typeError "unexpected keyword argument invoice_attachments") ∧
    (send_a_claim_and_its_children okRemote invoiceAttBundle).events.countP
      isInvoiceCreateB = 1 ∧
    (send_a_claim_and_its_children okRemote crnAttBundle).result =
      .error (.typeError "unexpected keyword argument crn_attachments") :=
  ⟨rfl, rfl, rfl⟩

namespace ProcessTasks

/-- C2: for every task list and every worker count of at least one, in
any interleaved run of _process_tasks, whenever the main thread has
returned, every task of the list was enqueued, and the dequeued and
invoked task multisets are exactly the task list: each task was dequeued
and its operation invoked exactly once. -/
theorem C2_no_return_before_all_executed (fail : τ → Bool) (tasks : List τ)
    (n : Nat) (_hn : 1 ≤ n) (s : SysState τ) (h : Reachable fail tasks n s)
    (hret : s.main = .returned) :
    enqueuedTasks s.trace = tasks ∧
    (dequeuedTasks s.trace).Perm tasks ∧
    (execedTasks s.trace).Perm tasks := by
  obtain ⟨h1, h2, h3, -⟩ := returned_facts h hret
  exact ⟨h1, h2, h3⟩

/-- Witness for C2: the complete demo schedule with one worker and one
task reaches the returned state having enqueued, dequeued and executed
exactly that task. -/
theorem C2_witness :
    enqueuedTasks demoRunNat.trace = [0] ∧
    (dequeuedTasks demoRunNat.trace).Perm [0] ∧
    (execedTasks demoRunNat.trace).Perm [0] :=
  C2_no_return_before_all_executed (fun _ => false) [0] 1 (by decide) demoRunNat
    (runActs_reach (fun _ => false) demoActs (initState 1 [0]) demoRunNat rfl) rfl

/-- C4: when a task operation raises, the worker catches and logs the
error and the pool is unaffected: in every reachable state the logged
errors are exactly the raising executions; whenever the run has
returned, every task (including every raising one) was executed and
acknowledged and all workers have stopped; and for every environment -
even one where every task raises - a complete run reaching the returned
state exists. -/
theorem C4_raise_caught_logged_pool_continues (fail : τ → Bool)
    (tasks : List τ) (n : Nat) (hn : 1 ≤ n) :
    (∀ s, Reachable fail tasks n s →
      loggedPairs s.trace = failExecPairs s.trace) ∧
    (∀ s, Reachable fail tasks n s → s.main = .returned →
      (execedTasks s.trace).Perm tasks ∧ (ackedTasks s.trace).Perm tasks ∧
      ∀ st ∈ s.workers, st = .stopped) ∧
    (∃ s, Reachable fail tasks n s ∧ s.main = .returned) := by
  refine ⟨?_, ?_, processTasks_terminates fail tasks hn⟩
  · intro s hs
    exact (Inv_reachable hs).hlog
  · intro s hs hret
    obtain ⟨-, -, h3, h4, h5, -⟩ := returned_facts hs hret
    exact ⟨h3, h4, h5⟩

/-- Witness for C4: the demo schedule under the environment where the
single task raises still executes and acknowledges it, logs the raise,
stops the worker, and a returned run exists. -/
theorem C4_witness :
    loggedPairs demoRunFail.trace = failExecPairs demoRunFail.trace ∧
    (execedTasks demoRunFail.trace).Perm [5] ∧
    (ackedTasks demoRunFail.trace).Perm [5] ∧
    (∀ st ∈ demoRunFail.workers, st = .stopped) ∧
    (∃ s, Reachable (fun _ => (true : Bool)) [5] 1 s ∧ s.main = .returned) := by
  have h := C4_raise_caught_logged_pool_continues (fun _ => true) [5] 1 (by decide)
  have hr : Reachable (fun _ => (true : Bool)) [5] 1 demoRunFail :=
    runActs_reach (fun _ => true) demoActs (initState 1 [5]) demoRunFail rfl
  obtain ⟨ha, hb, hc⟩ := h
  obtain ⟨h3, h4, h5⟩ := hb demoRunFail hr rfl
  exact ⟨ha demoRunFail hr, h3, h4, h5, hc⟩

/-- C5: in every run of _process_tasks with at least one worker that has
reached the returned state, exactly n workers were spawned, every spawn
preceded every task enqueue, exactly n stop sentinels were put, every
sentinel was put after the join barrier, exactly n sentinel consumptions
happened on pairwise distinct workers, and every worker has stopped. -/
theorem C5_worker_lifecycle (fail : τ → Bool) (tasks : List τ) (n : Nat)
    (_hn : 1 ≤ n) (s : SysState τ) (h : Reachable fail tasks n s)
    (hret : s.main = .returned) :
    spawnedCount s.trace = n ∧
    spawnCompleteBeforeWork s.trace ∧
    sentinelPutCount s.trace = n ∧
    sentinelsAfterBarrier s.trace ∧
    (consumedWorkers s.trace).length = n ∧
    (consumedWorkers s.trace).Nodup ∧
    (∀ st ∈ s.workers, st = .stopped) := by
  obtain ⟨-, -, -, -, h5, h6, h7, h8, h9⟩ := returned_facts h hret
  obtain ⟨ho1, ho2⟩ := returned_orderings h hret
  exact ⟨h6, ho1, h7, ho2, h8, h9, h5⟩

/-- Witness for C5: the demo run with one worker spawns one worker
before the task, puts one sentinel after the barrier, consumes it, and
ends with the worker stopped. -/
theorem C5_witness :
    spawnedCount demoRunNat.trace = 1 ∧
    spawnCompleteBeforeWork demoRunNat.trace ∧
    sentinelPutCount demoRunNat.trace = 1 ∧
    sentinelsAfterBarrier demoRunNat.trace ∧
    (consumedWorkers demoRunNat.trace).length = 1 ∧
    (consumedWorkers demoRunNat.trace).Nodup ∧
    (∀ st ∈ demoRunNat.workers, st = .stopped) :=
  C5_worker_lifecycle (fun _ => false) [0] 1 (by decide) demoRunNat
    (runActs_reach (fun _ => false) demoActs (initState 1 [0]) demoRunNat rfl) rfl

end ProcessTasks

/-- C3: no attachment task is ever dispatched to a worker before its
parent resource's creation call returned successfully with an
identifier: whenever the synchronous phase hands a task list to
_process_tasks, every task whose operation a worker has invoked, in any
reachable state of any interleaving, carries as its first argument an
identifier drawn from a successful creation response recorded earlier in
the synchronous phase. -/
theorem C3_no_dispatch_before_parent_created (remote : Remote)
    (bundled : List (String × PyVal)) (tasks : List QTask)
    (hok : (send_a_claim_and_its_children remote bundled).result = .ok tasks)
    (fail : QTask → Bool) (n : Nat) (s : ProcessTasks.SysState QTask)
    (h : ProcessTasks.Reachable fail tasks n s) :
    ∀ t ∈ ProcessTasks.execedTasks s.trace, ∃ pid, t.args.head? = some pid ∧
      pid ∈ createdIds (send_a_claim_and_its_children remote bundled).events := by
  intro t ht
  have hmem := ProcessTasks.executed_mem_tasks h t ht
  obtain ⟨kw, r, rest, hev, hr, hkw, hrest, herr, hnoid1, hnoid2, htask⟩ :=
    sync_analysis remote bundled
  exact htask tasks hok t hmem

/-- Witness for C3: the claim attachment task of the demo bundle is
executed in the demo run and its first argument is the id returned by
the claim creation call. -/
theorem C3_witness :
    ∃ pid, demoQTask.args.head? = some pid ∧
      pid ∈ createdIds (send_a_claim_and_its_children okRemote claimAttBundle).events := by
  have hm : demoQTask ∈ ProcessTasks.execedTasks ProcessTasks.demoRunQ.trace := by
    have he : ProcessTasks.execedTasks ProcessTasks.demoRunQ.trace = [demoQTask] := rfl
    rw [he]
    exact List.mem_cons_self _ _
  exact C3_no_dispatch_before_parent_created okRemote claimAttBundle [demoQTask] rfl
    (fun _ => false) 1 ProcessTasks.demoRunQ
    (ProcessTasks.runActs_reach (fun _ => false) ProcessTasks.demoActs
      (ProcessTasks.initState 1 [demoQTask]) ProcessTasks.demoRunQ rfl)
    demoQTask hm

/-- C6: when claim k of a batch fails its orchestration, the other
claims are unaffected: send_claims_in_bulk settles one future per
submitted claim, the future of every claim (failing or not) is exactly
that claim's own orchestration outcome, and the method still returns
normally with no identifier handed to the caller. -/
theorem C6_bulk_isolated_failures (remote : Remote)
    (claims : List (List (String × PyVal))) (k : Nat) (c : List (String × PyVal))
    (e : PyErr) (hk : claims[k]? = some c)
    (hfail : orchestrationOutcome remote c = .error e) :
    (send_claims_in_bulk remote claims).futures.length = claims.length ∧
    (∀ (j : Nat) (cj : List (String × PyVal)), claims[j]? = some cj →
      (send_claims_in_bulk remote claims).futures[j]? =
        some (orchestrationOutcome remote cj)) ∧
    (send_claims_in_bulk remote claims).retval = .ok () := by
  refine ⟨by simp [send_claims_in_bulk], ?_, rfl⟩
  intro j cj hj
  simp [send_claims_in_bulk, List.getElem?_map, hj]

/-- Witness for C6: a single element batch whose claim creation fails
remotely still settles its one future with that failure and returns
normally. -/
theorem C6_witness :
    ([scalarClaimFields] : List (List (String × PyVal)))[0]? = some scalarClaimFields ∧
    orchestrationOutcome failRemote scalarClaimFields =
      .error (.requestError "remote call failed") ∧
    ((send_claims_in_bulk failRemote [scalarClaimFields]).futures.length = 1 ∧
     (∀ (j : Nat) (cj : List (String × PyVal)),
        ([scalarClaimFields] : List (List (String × PyVal)))[j]? = some cj →
       (send_claims_in_bulk failRemote [scalarClaimFields]).futures[j]? =
         some (orchestrationOutcome failRemote cj)) ∧
     (send_claims_in_bulk failRemote [scalarClaimFields]).retval = .ok ()) :=
  ⟨rfl, rfl, C6_bulk_isolated_failures failRemote [scalarClaimFields] 0
    scalarClaimFields (.requestError "remote call failed") rfl rfl⟩

/-- C7: the worked example of the specification - one bundled claim with
two invoices, the first carrying one attachment and the second none, and
no credit notes - does not behave as specified: instead of two
submit_invoices calls and one attachment task, the first submit_invoices
call receives the nested invoice_attachments key through **invoice and
raises TypeError, so exactly one claim creation call and one invoice
submission call happen, the error propagates out of the per claim
orchestration, and no task list ever reaches _process_tasks. -/
theorem C7_example_scenario_diverges :
    (send_a_claim_and_its_children okRemote exampleScenarioBundle).events.countP
      isClaimCreateB = 1 ∧
    (send_a_claim_and_its_children okRemote exampleScenarioBundle).events.countP
      isInvoiceCreateB = 1 ∧
    (send_a_claim_and_its_children okRemote exampleScenarioBundle).result =
      .error (.typeError "unexpected keyword argument invoice_attachments") :=
  ⟨rfl, rfl, rfl⟩

/-- C8: for every bundled claim, the orchestrator first removes the
invoices, claim_attachments and credit_notes entries - the keyword
arguments it passes to create_claim are exactly the remaining entries -
and the very first recorded call is the single create_claim call (it is
never retried: exactly one claim creation event exists in any run); if
that call fails, no other creation call happens and the error propagates
out of the per claim orchestration unchanged. -/
theorem C8_strip_and_create_claim_first (remote : Remote)
    (bundled : List (String × PyVal)) :
    ∃ kw rest,
      (send_a_claim_and_its_children remote bundled).events =
        .claimCreate kw (create_claim remote kw) :: rest ∧
      (∀ k v, (k, v) ∈ kw ↔ ((k, v) ∈ bundled ∧ k ≠ "invoices" ∧
        k ≠ "claim_attachments" ∧ k ≠ "credit_notes")) ∧
      (send_a_claim_and_its_children remote bundled).events.countP isClaimCreateB
        = 1 ∧
      (∀ e, create_claim remote kw = .error e →
        (send_a_claim_and_its_children remote bundled).events =
          [.claimCreate kw (.error e)] ∧
        (send_a_claim_and_its_children remote bundled).result = .error e) := by
  obtain ⟨kw, r, rest, hev, hr, hkw, hrest, herr, -, -, -⟩ :=
    sync_analysis remote bundled
  refine ⟨kw, rest, by rw [hev, ← hr], hkw, ?_, ?_⟩
  · rw [hev, List.countP_cons]
    have hz : rest.countP isClaimCreateB = 0 :=
      List.countP_eq_zero.mpr (fun e he => by
        have hf := hrest e he
        cases e <;> simp_all)
    rw [hz]
    rfl
  · intro e he
    have hre : r = .error e := hr.trans he
    have h2 := herr e hre
    exact ⟨by rw [hev, h2.1, hre], h2.2⟩

/-- C9: whenever any creation call of the synchronous phase (the claim
creation or any invoice or credit note submission) returned successfully
a mapping that lacks the id key, the per claim orchestration result is
the propagated KeyError for id, aborting the rest of that claim's
orchestration exactly like a creation failure. -/
theorem C9_missing_id_raises_keyerror (remote : Remote)
    (bundled : List (String × PyVal)) :
    ∀ ev ∈ (send_a_claim_and_its_children remote bundled).events,
      ∀ v entries, ev.resp = .ok v → v = .dict entries →
      entries.lookup "id" = Option.none →
      (send_a_claim_and_its_children remote bundled).result =
        .error (.keyError "id") := by
  obtain ⟨kw, r, rest, hev, hr, hkw, hrest, herr, hnoid1, hnoid2, -⟩ :=
    sync_analysis remote bundled
  intro ev hevm v entries hresp hd hl
  rw [hev] at hevm
  rcases List.mem_cons.mp hevm with rfl | hm2
  · exact hnoid1 v entries hresp hd hl
  · exact hnoid2 ev hm2 v entries hresp hd hl

/-- Witness for C9: a remote whose claim creation returns a mapping with
only an uuid key makes the orchestration end in KeyError for id. -/
theorem C9_witness :
    (send_a_claim_and_its_children noIdRemote scalarClaimFields).result =
      .error (.keyError "id") := by
  have hm : CallEvent.claimCreate scalarClaimFields (.ok (.dict [("uuid", .str "u1")]))
      ∈ (send_a_claim_and_its_children noIdRemote scalarClaimFields).events := by
    have he : (send_a_claim_and_its_children noIdRemote scalarClaimFields).events =
        [.claimCreate scalarClaimFields (.ok (.dict [("uuid", .str "u1")]))] := rfl
    rw [he]
    exact List.mem_cons_self _ _
  exact C9_missing_id_raises_keyerror noIdRemote scalarClaimFields
    (.claimCreate scalarClaimFields (.ok (.dict [("uuid", .str "u1")]))) hm
    (.dict [("uuid", .str "u1")]) [("uuid", .str "u1")] rfl rfl rfl

/-- C10: an exception escaping a per claim orchestration is invisible to
the caller of send_claims_in_bulk: the method performs no logging (the
model records none), returns normally whatever happened, and the failure
is only stored in the never consumed future of executor.map. -/
theorem C10_escaped_exception_invisible (remote : Remote)
    (claims : List (List (String × PyVal))) (k : Nat) (c : List (String × PyVal))
    (e : PyErr) (hk : claims[k]? = some c)
    (hfail : orchestrationOutcome remote c = .error e) :
    (send_claims_in_bulk remote claims).retval = .ok () ∧
    (send_claims_in_bulk remote claims).futures[k]? = some (.error e) := by
  refine ⟨rfl, ?_⟩
  simp [send_claims_in_bulk, List.getElem?_map, hk, hfail]

/-- Witness for C10: the failing single element batch returns normally
while the failure sits only in the settled future list. -/
theorem C10_witness :
    ([scalarClaimFields] : List (List (String × PyVal)))[0]? = some scalarClaimFields ∧
    orchestrationOutcome failRemote scalarClaimFields =
      .error (.requestError "remote call failed") ∧
    ((send_claims_in_bulk failRemote [scalarClaimFields]).retval = .ok () ∧
     (send_claims_in_bulk failRemote [scalarClaimFields]).futures[0]? =
       some (.error (.requestError "remote call failed"))) :=
  ⟨rfl, rfl, C10_escaped_exception_invisible failRemote [scalarClaimFields] 0
    scalarClaimFields (.requestError "remote call failed") rfl rfl⟩
